import Mathlib

/-!
Laboratory scheduling: the allocation engine.

A shallow embedding of `scheduler.cpp` / `database.h` of the laboratory
scheduling system, followed by the properties established about it.

* C++ `int` fields are `Int`; the engine only stores and compares them.
* `std::vector` is `List`; `std::set<TimeSlot>` is an ascending duplicate-free
  list; `std::map<int, std::set<TimeSlot>>` is a key-ascending association list.
* The SQLite store is a record holding the rows the queries return.  The outcome
  of the n-th `INSERT` issued by `Database::addSchedule` is given by a stream
  `ok : Nat → Bool`, and the outcome of the `DELETE` issued by
  `Database::clearSchedules` by a flag `deleted : Bool`, so that every pattern of
  failing statements can be expressed.
-/

namespace LabSchedule

/-! ## Data model (`database.h`) -/

/-- Time slot: week, weekday and period, as in `struct TimeSlot`. -/
structure TimeSlot where
  week : Int
  day : Int
  period : Int
deriving DecidableEq, Repr

/-- The member `TimeSlot::operator==`. -/
def TimeSlot.eq (a other : TimeSlot) : Bool :=
  a.week == other.week && a.day == other.day && a.period == other.period

/-- The member `TimeSlot::operator<`. -/
def TimeSlot.lt (a other : TimeSlot) : Bool :=
  if a.week ≠ other.week then decide (a.week < other.week)
  else if a.day ≠ other.day then decide (a.day < other.day)
  else decide (a.period < other.period)

/-- Room record, as in `struct Laboratory`. -/
structure Laboratory where
  id : Int
  location : String
  capacity : Int
deriving DecidableEq, Repr

/-- Scheduling request, as in `struct LabRequest`. -/
structure LabRequest where
  id : Int
  classId : String
  studentCount : Int
  teacher : String
  preferredSlots : List TimeSlot
  excludedSlots : List TimeSlot
  priority : Int
deriving DecidableEq, Repr

/-- Committed assignment, as in `struct Schedule`. -/
structure Schedule where
  id : Int
  requestId : Int
  labId : Int
  timeSlot : TimeSlot
deriving DecidableEq, Repr

/-- The part of the SQLite store the scheduler reads and writes:
`laboratories` is what `getAllLaboratories` returns, `requests` what
`getAllRequests` returns (already ordered by priority), `schedules` the rows of
table `schedules` in insertion order, `nextId` the next AUTOINCREMENT key of that
table and `writes` the number of `addSchedule` calls issued so far. -/
structure Database where
  laboratories : List Laboratory
  requests : List LabRequest
  schedules : List Schedule
  nextId : Int
  writes : Nat
deriving DecidableEq, Repr

/-- The method `Database::clearSchedules`: `executeSQL("DELETE FROM schedules;")`.
`deleted` is the outcome of `sqlite3_exec`: on success the table is emptied and
`true` is returned, on failure the rows stay in place and `false` is returned. -/
def Database.clearSchedules (deleted : Bool) (db : Database) : Bool × Database :=
  if deleted then (true, { db with schedules := [] }) else (false, db)

/-- The method `Database::addSchedule`: one `INSERT` of `(requestId, labId, timeSlot)`; the
`id` of the argument is not bound, the row receives the AUTOINCREMENT key.  The
call succeeds iff `ok db.writes`; a failed call stores nothing. -/
def Database.addSchedule (ok : Nat → Bool) (db : Database) (schedule : Schedule) :
    Bool × Database :=
  if ok db.writes then
    (true, { db with
      schedules := db.schedules ++ [{ schedule with id := db.nextId }]
      nextId := db.nextId + 1
      writes := db.writes + 1 })
  else
    (false, { db with writes := db.writes + 1 })

/-! ## Occupancy index (`std::map<int, std::set<TimeSlot>>`) -/

/-- The call `std::set<TimeSlot>::insert`: ordered insertion, a slot equivalent to a stored
one is not inserted again. -/
def slotSetInsert : List TimeSlot → TimeSlot → List TimeSlot
  | [], slot => [slot]
  | y :: ys, slot =>
    if slot.lt y then slot :: y :: ys
    else if y.lt slot then y :: slotSetInsert ys slot
    else y :: ys

/-- The test `set.find(slot) != set.end()`: some stored element is equivalent to `slot`
under `operator<`. -/
def slotSetContains (s : List TimeSlot) (slot : TimeSlot) : Bool :=
  s.any fun y => !slot.lt y && !y.lt slot

/-- Occupancy index: lab id ↦ occupied slots. -/
abbrev Occupancy := List (Int × List TimeSlot)

/-- The lookup `labOccupancy.find(labId)`. -/
def Occupancy.find : Occupancy → Int → Option (List TimeSlot)
  | [], _ => none
  | (k, v) :: rest, labId => if k = labId then some v else Occupancy.find rest labId

/-- The statement `labOccupancy[labId].insert(slot)`: `operator[]` creates an empty set
for a missing key (at its place in key order), then the slot is inserted. -/
def Occupancy.insertSlot : Occupancy → Int → TimeSlot → Occupancy
  | [], labId, slot => [(labId, slotSetInsert [] slot)]
  | (k, v) :: rest, labId, slot =>
    if labId < k then (labId, slotSetInsert [] slot) :: (k, v) :: rest
    else if k < labId then (k, v) :: Occupancy.insertSlot rest labId slot
    else (k, slotSetInsert v slot) :: rest

/-- The scheduler object: its database and its `labOccupancy` member. -/
structure Scheduler where
  database : Database
  labOccupancy : Occupancy
deriving DecidableEq, Repr

/-! ## The allocation engine (`scheduler.cpp`) -/

/-- The loop of `Scheduler::getAllPossibleSlots` over `lo ≤ i < hi`. -/
def intRange (lo hi : Int) : List Int :=
  (List.range (hi - lo).toNat).map fun (i : Nat) => lo + Int.ofNat i

/-- The method `Scheduler::getAllPossibleSlots`: weeks 9..10, days 0..4, periods 0..1. -/
def getAllPossibleSlots : List TimeSlot :=
  (intRange 9 (10 + 1)).flatMap fun week =>
    (intRange 0 5).flatMap fun day =>
      (intRange 0 2).map fun period => { week := week, day := day, period := period }

/-- The method `Scheduler::isSlotExcluded`: `std::find` with `operator==`. -/
def isSlotExcluded (slot : TimeSlot) (excludedSlots : List TimeSlot) : Bool :=
  excludedSlots.any fun e => e.eq slot

/-- The method `Scheduler::isLabAvailable`. -/
def isLabAvailable (occ : Occupancy) (labId : Int) (slot : TimeSlot) : Bool :=
  match occ.find labId with
  | none => true
  | some s => !slotSetContains s slot

/-- The method `Scheduler::markLabOccupied`. -/
def markLabOccupied (occ : Occupancy) (labId : Int) (slot : TimeSlot) : Occupancy :=
  occ.insertSlot labId slot

/-- The room scan of `allocateRequest` for one slot (the inner `for` of either
phase): the first room with enough capacity that is free at `slot` is written;
a successful write marks the room and ends the scan with `true`, a failed write
continues with the next room. -/
def scanLabs (ok : Nat → Bool) (request : LabRequest) (slot : TimeSlot) :
    List Laboratory → Scheduler → Bool × Scheduler
  | [], s => (false, s)
  | lab :: rest, s =>
    if lab.capacity < request.studentCount then scanLabs ok request slot rest s
    else if !isLabAvailable s.labOccupancy lab.id slot then scanLabs ok request slot rest s
    else
      -- `schedule.id` is left unset by the source and is not bound by the INSERT
      match s.database.addSchedule ok
          { id := 0, requestId := request.id, labId := lab.id, timeSlot := slot } with
      | (true, db) =>
        (true, { database := db, labOccupancy := markLabOccupied s.labOccupancy lab.id slot })
      | (false, db) => scanLabs ok request slot rest { s with database := db }

/-- Phase 1 of `allocateRequest`: the loop over `request.preferredSlots`. -/
def phase1 (ok : Nat → Bool) (request : LabRequest) (labs : List Laboratory) :
    List TimeSlot → Scheduler → Bool × Scheduler
  | [], s => (false, s)
  | preferredSlot :: rest, s =>
    if isSlotExcluded preferredSlot request.excludedSlots then phase1 ok request labs rest s
    else
      match scanLabs ok request preferredSlot labs s with
      | (true, s1) => (true, s1)
      | (false, s1) => phase1 ok request labs rest s1

/-- Phase 2 of `allocateRequest`: the loop over `allSlots`, skipping excluded
slots and slots found in `request.preferredSlots` (`std::find`, `operator==`). -/
def phase2 (ok : Nat → Bool) (request : LabRequest) (labs : List Laboratory) :
    List TimeSlot → Scheduler → Bool × Scheduler
  | [], s => (false, s)
  | slot :: rest, s =>
    if isSlotExcluded slot request.excludedSlots then phase2 ok request labs rest s
    else if request.preferredSlots.any (fun p => p.eq slot) then phase2 ok request labs rest s
    else
      match scanLabs ok request slot labs s with
      | (true, s1) => (true, s1)
      | (false, s1) => phase2 ok request labs rest s1

/-- The method `Scheduler::allocateRequest`. -/
def allocateRequest (ok : Nat → Bool) (request : LabRequest) (labs : List Laboratory)
    (s : Scheduler) : Bool × Scheduler :=
  match phase1 ok request labs request.preferredSlots s with
  | (true, s1) => (true, s1)
  | (false, s1) => phase2 ok request labs getAllPossibleSlots s1

/-- The request loop of `generateSchedule`, carrying `successCount`. -/
def scheduleLoop (ok : Nat → Bool) (labs : List Laboratory) :
    List LabRequest → Scheduler → Int → Int × Scheduler
  | [], s, successCount => (successCount, s)
  | request :: rest, s, successCount =>
    match allocateRequest ok request labs s with
    | (true, s1) => scheduleLoop ok labs rest s1 (successCount + 1)
    | (false, s1) => scheduleLoop ok labs rest s1 successCount

/-- The method `Scheduler::generateSchedule`: call `clearSchedules` (its `bool` is
discarded, so a failed `DELETE` goes unnoticed) and clear the occupancy index,
read rooms and requests, return 0 when either is empty, otherwise run the
request loop and return `successCount`.  (`successCount` is not wrapped: it is
bounded by the number of requests.) -/
def generateSchedule (deleted : Bool) (ok : Nat → Bool) (s : Scheduler) : Int × Scheduler :=
  let s0 : Scheduler :=
    { database := (s.database.clearSchedules deleted).2, labOccupancy := [] }
  let labs := s0.database.laboratories
  let requests := s0.database.requests
  if labs.isEmpty then (0, s0)
  else if requests.isEmpty then (0, s0)
  else scheduleLoop ok labs requests s0 0

/-- The rows still in the table after step 1 of `generateSchedule`: none when
the `DELETE` succeeded, the earlier rows when it failed. -/
def survivors (deleted : Bool) (s : Scheduler) : List Schedule :=
  (s.database.clearSchedules deleted).2.schedules

/-- The state in which the request loop of `generateSchedule` starts. -/
def startState (deleted : Bool) (s : Scheduler) : Scheduler :=
  { database := (s.database.clearSchedules deleted).2, labOccupancy := [] }

/-- The rows committed by one run of `generateSchedule`: the table after the run
without the rows that were in it when the request loop started.  When the
`DELETE` succeeds these are all the rows of the table. -/
def committedRows (deleted : Bool) (ok : Nat → Bool) (s : Scheduler) : List Schedule :=
  (generateSchedule deleted ok s).2.database.schedules.drop (survivors deleted s).length

/-- The state `s` with the rows `stale` in front of its table. -/
def withStale (stale : List Schedule) (s : Scheduler) : Scheduler :=
  { s with database := { s.database with schedules := stale ++ s.database.schedules } }

/-- The `(requestId, labId, timeSlot)` content of a stored schedule row. -/
def Schedule.triple (sch : Schedule) : Int × Int × TimeSlot :=
  (sch.requestId, sch.labId, sch.timeSlot)

/-- The `(labId, timeSlot)` booking of a stored schedule row. -/
def Schedule.booking (sch : Schedule) : Int × TimeSlot :=
  (sch.labId, sch.timeSlot)

/-- The return values of the successive `allocateRequest` calls made when the
requests are processed in order from state `s`. -/
def allocResults (ok : Nat → Bool) (labs : List Laboratory) :
    List LabRequest → Scheduler → List Bool
  | [], _ => []
  | request :: rest, s =>
    (allocateRequest ok request labs s).1 ::
      allocResults ok labs rest (allocateRequest ok request labs s).2

/-! ## Data of `test_algorithm.cpp` -/

/-- The three rooms added by `test_algorithm.cpp`, with their AUTOINCREMENT ids. -/
def testLabs : List Laboratory :=
  [{ id := 1, location := "A301", capacity := 40 },
   { id := 2, location := "A302", capacity := 40 },
   { id := 3, location := "B201", capacity := 50 }]

/-- The first request of `test_algorithm.cpp` (class B210307). -/
def testRequest1 : LabRequest :=
  { id := 1, classId := "B210307", studentCount := 33, teacher := "Zhu Jie",
    preferredSlots := [⟨9, 0, 0⟩, ⟨9, 1, 0⟩, ⟨9, 2, 0⟩, ⟨9, 3, 0⟩, ⟨9, 4, 0⟩],
    excludedSlots := [⟨9, 0, 1⟩, ⟨9, 2, 1⟩, ⟨9, 3, 1⟩], priority := 1 }

/-- The second request of `test_algorithm.cpp` (class B210308). -/
def testRequest2 : LabRequest :=
  { id := 2, classId := "B210308", studentCount := 36, teacher := "Hu Huijuan",
    preferredSlots := [⟨9, 0, 0⟩, ⟨9, 1, 0⟩],
    excludedSlots := [⟨9, 2, 0⟩, ⟨9, 4, 0⟩, ⟨9, 4, 1⟩], priority := 2 }

/-- The third request of `test_algorithm.cpp` (class B210309). -/
def testRequest3 : LabRequest :=
  { id := 3, classId := "B210309", studentCount := 33, teacher := "Dai Hua",
    preferredSlots := [⟨9, 1, 0⟩, ⟨9, 2, 0⟩],
    excludedSlots := [⟨9, 0, 0⟩, ⟨9, 0, 1⟩, ⟨9, 3, 1⟩], priority := 3 }

/-- The fourth request of `test_algorithm.cpp` (class B210310). -/
def testRequest4 : LabRequest :=
  { id := 4, classId := "B210310", studentCount := 33, teacher := "Xu He",
    preferredSlots := [⟨9, 1, 0⟩, ⟨9, 2, 0⟩, ⟨9, 4, 0⟩],
    excludedSlots := [⟨9, 0, 1⟩, ⟨9, 1, 1⟩], priority := 4 }

/-- The four requests added by `test_algorithm.cpp`, in priority order. -/
def testRequests : List LabRequest :=
  [testRequest1, testRequest2, testRequest3, testRequest4]

/-- The scheduler of `test_algorithm.cpp` just before `generateSchedule`. -/
def testScheduler : Scheduler :=
  { database := { laboratories := testLabs, requests := testRequests, schedules := [],
                  nextId := 1, writes := 0 },
    labOccupancy := [] }

/-- The row stored for the first request by the run of `test_algorithm.cpp`. -/
def testRow1 : Schedule :=
  { id := 1, requestId := 1, labId := 1, timeSlot := ⟨9, 0, 0⟩ }

/-- A scheduler with no rooms that still holds the row and the occupancy mark
left by an earlier run. -/
def staleScheduler : Scheduler :=
  { database := { laboratories := [], requests := testRequests,
                  schedules := [{ id := 1, requestId := 1, labId := 1, timeSlot := ⟨9, 0, 0⟩ }],
                  nextId := 2, writes := 1 },
    labOccupancy := [(1, [⟨9, 0, 0⟩])] }

/-- The scheduler of `test_algorithm.cpp` holding a row and an occupancy mark
left by an earlier run. -/
def staleTestScheduler : Scheduler :=
  { database := { laboratories := testLabs, requests := testRequests,
                  schedules := [{ id := 5, requestId := 4, labId := 1, timeSlot := ⟨9, 0, 0⟩ }],
                  nextId := 6, writes := 4 },
    labOccupancy := [(1, [⟨9, 0, 0⟩])] }

/-- The write outcome stream in which every `addSchedule` call succeeds. -/
def allOk : Nat → Bool := fun _ => true

/-! ## Specification vocabulary -/

/-- The keys of an occupancy index are strictly ascending, as in a `std::map`. -/
def Occupancy.KeySorted (occ : Occupancy) : Prop :=
  (occ.map Prod.fst).Pairwise (· < ·)

/-- The state reached by an unsuccessful scan: nothing but the count of issued
writes has changed. -/
structure Failed (s s1 : Scheduler) : Prop where
  occupancy : s1.labOccupancy = s.labOccupancy
  laboratories : s1.database.laboratories = s.database.laboratories
  requests : s1.database.requests = s.database.requests
  schedules : s1.database.schedules = s.database.schedules
  nextId : s1.database.nextId = s.database.nextId
  writes : s.database.writes ≤ s1.database.writes

/-- The state reached by committing `request` to room `lab` at `slot`: one row
is appended, the pair is marked, and the last write issued succeeded. -/
structure Commit (ok : Nat → Bool) (request : LabRequest) (lab : Laboratory) (slot : TimeSlot)
    (s s1 : Scheduler) : Prop where
  capacity : request.studentCount ≤ lab.capacity
  free : isLabAvailable s.labOccupancy lab.id slot = true
  occupancy : s1.labOccupancy = markLabOccupied s.labOccupancy lab.id slot
  laboratories : s1.database.laboratories = s.database.laboratories
  requests : s1.database.requests = s.database.requests
  schedules : s1.database.schedules = s.database.schedules ++
    [{ id := s.database.nextId, requestId := request.id, labId := lab.id, timeSlot := slot }]
  nextId : s1.database.nextId = s.database.nextId + 1
  writes : s.database.writes < s1.database.writes
  written : ok (s1.database.writes - 1) = true

/-- Outcome of a scan started in `s`: on `true` some room of `labs` and some
slot satisfying `P` were committed, on `false` the state is unchanged. -/
def Outcome (ok : Nat → Bool) (request : LabRequest) (labs : List Laboratory)
    (P : TimeSlot → Prop) (s : Scheduler) : Bool × Scheduler → Prop
  | (true, s1) => ∃ lab slot, lab ∈ labs ∧ P slot ∧ Commit ok request lab slot s s1
  | (false, s1) => Failed s s1

/-- A stored row `sch` is an admissible assignment of `request` over `labs`. -/
def CommittedFor (labs : List Laboratory) (request : LabRequest) (sch : Schedule) : Prop :=
  sch.requestId = request.id ∧
  sch.timeSlot ∉ request.excludedSlots ∧
  (sch.timeSlot ∈ request.preferredSlots ∨ sch.timeSlot ∈ getAllPossibleSlots) ∧
  ∃ lab ∈ labs, lab.id = sch.labId ∧ request.studentCount ≤ lab.capacity

/-- Occupancy and stored rows agree: a pair is marked occupied exactly when a
stored row books it, no booking is stored twice, and the index is key-sorted. -/
structure Consistent (s : Scheduler) : Prop where
  sorted : s.labOccupancy.KeySorted
  marked : ∀ labId slot, isLabAvailable s.labOccupancy labId slot = false ↔
    (labId, slot) ∈ s.database.schedules.map Schedule.booking
  nodup : (s.database.schedules.map Schedule.booking).Nodup

/-- Two runs are in step: same occupancy, same stored triples, same rooms and
requests, and the writes still to come have the same outcomes. -/
structure InStep (ok1 ok2 : Nat → Bool) (s1 s2 : Scheduler) : Prop where
  occupancy : s1.labOccupancy = s2.labOccupancy
  triples : s1.database.schedules.map Schedule.triple =
    s2.database.schedules.map Schedule.triple
  outcomes : ∀ n, ok1 (s1.database.writes + n) = ok2 (s2.database.writes + n)

/-- Two scan results agree: same return value and states in step. -/
def Agree (ok1 ok2 : Nat → Bool) (r1 r2 : Bool × Scheduler) : Prop :=
  r1.1 = r2.1 ∧ InStep ok1 ok2 r1.2 r2.2

/-- The state after committing `request` to `lab` at `slot` with a write that
succeeds at once. -/
def commitState (s : Scheduler) (request : LabRequest) (lab : Laboratory) (slot : TimeSlot) :
    Scheduler :=
  { database := { s.database with
      schedules := s.database.schedules ++
        [{ id := s.database.nextId, requestId := request.id, labId := lab.id, timeSlot := slot }]
      nextId := s.database.nextId + 1
      writes := s.database.writes + 1 },
    labOccupancy := markLabOccupied s.labOccupancy lab.id slot }

/-- The room test of the scan: enough capacity and free at `slot`. -/
def roomFits (occ : Occupancy) (request : LabRequest) (slot : TimeSlot) (lab : Laboratory) :
    Bool :=
  decide (request.studentCount ≤ lab.capacity) && isLabAvailable occ lab.id slot

/-! ## Statistics (`Scheduler::getScheduleStats`) -/

/-- The record `Scheduler::ScheduleStats`.  The `double` field `successRate` is held as an
exact rational; the `int` counts are not wrapped. -/
structure ScheduleStats where
  totalRequests : Int
  successfulRequests : Int
  failedRequests : Int
  successRate : ℚ
  failedClasses : List String
deriving DecidableEq, Repr

/-- The call `std::set<int>::insert`: ordered insertion without duplicates. -/
def idSetInsert : List Int → Int → List Int
  | [], x => [x]
  | y :: ys, x =>
    if x < y then x :: y :: ys
    else if y < x then y :: idSetInsert ys x
    else y :: ys

/-- The test `set.find(x) != set.end()` on a `std::set<int>`. -/
def idSetContains (s : List Int) (x : Int) : Bool :=
  s.any fun y => !decide (x < y) && !decide (y < x)

/-- The first loop of `getScheduleStats`: the set `scheduledRequestIds`. -/
def scheduledRequestIds (allSchedules : List Schedule) : List Int :=
  allSchedules.foldl (fun ids schedule => idSetInsert ids schedule.requestId) []

/-- The second loop of `getScheduleStats`: `failedClasses`, by `push_back`. -/
def failedClassesLoop (ids : List Int) (allRequests : List LabRequest) : List String :=
  allRequests.foldl
    (fun failed request =>
      if !idSetContains ids request.id then
        failed ++ [request.classId ++ " (" ++ request.teacher ++ ")"]
      else failed)
    []

/-- The method `Scheduler::getScheduleStats`, over the requests and the schedule rows of the
database. -/
def getScheduleStats (s : Scheduler) : ScheduleStats :=
  let allRequests := s.database.requests
  let allSchedules := s.database.schedules
  let totalRequests : Int := allRequests.length
  let ids := scheduledRequestIds allSchedules
  let successfulRequests : Int := ids.length
  { totalRequests := totalRequests
    successfulRequests := successfulRequests
    failedRequests := totalRequests - successfulRequests
    successRate :=
      if totalRequests > 0 then (successfulRequests : ℚ) * 100 / (totalRequests : ℚ) else 0
    failedClasses := failedClassesLoop ids allRequests }

/-! ## Scan order, in the words of the specification -/

/-- Phase-1 slots: the preferred slots that are not excluded, in the request's order. -/
def phase1Slots (request : LabRequest) : List TimeSlot :=
  request.preferredSlots.filter fun p => !isSlotExcluded p request.excludedSlots

/-- Phase-2 slots: the slots of the universe, in canonical order, that are neither
excluded nor preferred. -/
def phase2Slots (request : LabRequest) : List TimeSlot :=
  getAllPossibleSlots.filter fun t =>
    !isSlotExcluded t request.excludedSlots && !request.preferredSlots.any fun p => p.eq t

/-- The candidates of one slot: the rooms, in list order, with enough capacity
that are available at the slot. -/
def candidatesAt (occ : Occupancy) (request : LabRequest) (labs : List Laboratory)
    (slot : TimeSlot) : List (TimeSlot × Laboratory) :=
  (labs.filter (roomFits occ request slot)).map fun lab => (slot, lab)

/-- All room+slot candidates of a request in scan order: phase-1 slots, then
phase-2 slots, each with its fitting rooms. -/
def candidates (occ : Occupancy) (request : LabRequest) (labs : List Laboratory) :
    List (TimeSlot × Laboratory) :=
  (phase1Slots request ++ phase2Slots request).flatMap (candidatesAt occ request labs)

/-- The state after `k` further failed writes: only the write count moves. -/
def withWrites (s : Scheduler) (k : Nat) : Scheduler :=
  { s with database := { s.database with writes := s.database.writes + k } }

/-- The commit rule in the words of the specification: go through the candidates
in order, one write each; the first write that succeeds commits its candidate,
a failed write leaves everything but the write count as it was. -/
def tryWrites (ok : Nat → Bool) (request : LabRequest) :
    List (TimeSlot × Laboratory) → Scheduler → Bool × Scheduler
  | [], s => (false, s)
  | (slot, lab) :: rest, s =>
    if ok s.database.writes then (true, commitState s request lab slot)
    else tryWrites ok request rest (withWrites s 1)

/-- A slot is usable for phase 1: not excluded and some room fits. -/
def eligible1 (occ : Occupancy) (request : LabRequest) (labs : List Laboratory)
    (slot : TimeSlot) : Bool :=
  !isSlotExcluded slot request.excludedSlots && labs.any (roomFits occ request slot)

/-- A slot is usable for phase 2: not excluded, not preferred and some room fits. -/
def eligible2 (occ : Occupancy) (request : LabRequest) (labs : List Laboratory)
    (slot : TimeSlot) : Bool :=
  !isSlotExcluded slot request.excludedSlots &&
    !(request.preferredSlots.any fun p => p.eq slot) &&
    labs.any (roomFits occ request slot)

/-- The occupancy index marks exactly the bookings of the rows stored after the
first `n0` rows of the table, i.e. of the rows committed since the request loop
started with `n0` rows in the table (`n0 = 0` when the `DELETE` succeeded). -/
def MarkedIffBooked (n0 : Nat) (s : Scheduler) : Prop :=
  ∀ labId slot, isLabAvailable s.labOccupancy labId slot = false ↔
    ∃ sch ∈ s.database.schedules.drop n0, sch.labId = labId ∧ sch.timeSlot = slot

/-! ## Scenarios of the specification -/

/-- One room of capacity 40. -/
def scenarioLab : Laboratory := { id := 1, location := "A301", capacity := 40 }

/-- First request of the scenario: 33 students, preferring only (9,0,0), no
exclusions, priority 1. -/
def scenarioRequest1 : LabRequest :=
  { id := 1, classId := "B210307", studentCount := 33, teacher := "Zhu Jie",
    preferredSlots := [⟨9, 0, 0⟩], excludedSlots := [], priority := 1 }

/-- Second request of the scenario: as the first, with priority 2. -/
def scenarioRequest2 : LabRequest :=
  { id := 2, classId := "B210308", studentCount := 33, teacher := "Hu Huijuan",
    preferredSlots := [⟨9, 0, 0⟩], excludedSlots := [], priority := 2 }

/-- The two requests of the scenario in priority order. -/
def scenarioRequests : List LabRequest := [scenarioRequest1, scenarioRequest2]

/-- The scheduler of the one-room, two-request scenario before the run. -/
def scenarioScheduler : Scheduler :=
  { database := { laboratories := [scenarioLab], requests := scenarioRequests,
                  schedules := [], nextId := 1, writes := 0 },
    labOccupancy := [] }

/-- The scenario after its first request has been allocated. -/
def scenarioAfterFirst : Scheduler :=
  (allocateRequest allOk scenarioRequest1 [scenarioLab] scenarioScheduler).2

/-- The write outcome stream in which only the very first `addSchedule` call fails. -/
def firstWriteFails : Nat → Bool := fun n => decide (0 < n)

/-- A request whose only preferred slot (9,0,0) is also excluded. -/
def vetoRequest : LabRequest :=
  { id := 1, classId := "B210307", studentCount := 33, teacher := "Zhu Jie",
    preferredSlots := [⟨9, 0, 0⟩], excludedSlots := [⟨9, 0, 0⟩], priority := 1 }

/-- The scheduler with one free room and only `vetoRequest`. -/
def vetoScheduler : Scheduler :=
  { database := { laboratories := [scenarioLab], requests := [vetoRequest],
                  schedules := [], nextId := 1, writes := 0 },
    labOccupancy := [] }

/-- Three requests with ids 1, 2, 3 and rows for the first two only. -/
def statsScheduler : Scheduler :=
  { database := { laboratories := testLabs,
                  requests := [testRequest1, testRequest2, testRequest3],
                  schedules := [{ id := 1, requestId := 1, labId := 1, timeSlot := ⟨9, 0, 0⟩ },
                                { id := 2, requestId := 2, labId := 2, timeSlot := ⟨9, 0, 0⟩ }],
                  nextId := 3, writes := 2 },
    labOccupancy := [] }

/-- The test scheduler after its first request has been allocated. -/
def testAfterFirst : Scheduler :=
  (allocateRequest allOk testRequest1 testLabs testScheduler).2

/-- A room of capacity 50 listed before a room of capacity 40. -/
def largerFirstLabs : List Laboratory :=
  [{ id := 1, location := "B201", capacity := 50 },
   { id := 2, location := "A301", capacity := 40 }]

/-- The scheduler over `largerFirstLabs` with the single request `scenarioRequest1`. -/
def largerFirstScheduler : Scheduler :=
  { database := { laboratories := largerFirstLabs, requests := [scenarioRequest1],
                  schedules := [], nextId := 1, writes := 0 },
    labOccupancy := [] }

/-- A request of 60 students, more than any test room holds. -/
def oversizeRequest : LabRequest :=
  { id := 9, classId := "B210399", studentCount := 60, teacher := "Lin",
    preferredSlots := [⟨9, 0, 0⟩], excludedSlots := [], priority := 9 }

/-! ## Slots, slot sets and the occupancy index -/

theorem TimeSlot.eq_iff (a b : TimeSlot) : a.eq b = true ↔ a = b := by
  cases a; cases b
  simp [TimeSlot.eq, and_assoc]

theorem TimeSlot.equiv_iff (a b : TimeSlot) : (!a.lt b && !b.lt a) = true ↔ a = b := by
  cases a; cases b
  simp only [TimeSlot.lt, TimeSlot.mk.injEq, Bool.and_eq_true, Bool.not_eq_true']
  constructor
  · rintro ⟨h1, h2⟩
    split_ifs at h1 h2 <;> simp at h1 h2 <;> omega
  · rintro ⟨rfl, rfl, rfl⟩
    simp

theorem isSlotExcluded_iff (slot : TimeSlot) (ex : List TimeSlot) :
    isSlotExcluded slot ex = true ↔ slot ∈ ex := by
  simp only [isSlotExcluded, List.any_eq_true, TimeSlot.eq_iff]
  constructor
  · rintro ⟨e, he, rfl⟩; exact he
  · intro h; exact ⟨slot, h, rfl⟩

theorem preferred_any_iff (slot : TimeSlot) (l : List TimeSlot) :
    l.any (fun p => p.eq slot) = true ↔ slot ∈ l :=
  isSlotExcluded_iff slot l

theorem slotSetContains_iff (s : List TimeSlot) (slot : TimeSlot) :
    slotSetContains s slot = true ↔ slot ∈ s := by
  simp only [slotSetContains, List.any_eq_true, TimeSlot.equiv_iff]
  constructor
  · rintro ⟨e, he, rfl⟩; exact he
  · intro h; exact ⟨slot, h, rfl⟩

theorem mem_slotSetInsert (s : List TimeSlot) (slot y : TimeSlot) :
    y ∈ slotSetInsert s slot ↔ y = slot ∨ y ∈ s := by
  induction s with
  | nil => simp [slotSetInsert]
  | cons z zs ih =>
    unfold slotSetInsert
    by_cases h1 : slot.lt z = true
    · simp [h1]
    · by_cases h2 : z.lt slot = true
      · simp only [h1, h2, if_true, if_false, List.mem_cons, ih, Bool.false_eq_true]
        tauto
      · have hz : slot = z := (TimeSlot.equiv_iff slot z).1 (by simp [h1, h2])
        subst hz
        simp [h1]

theorem Occupancy.find_eq_none_of_lt (occ : Occupancy) (labId : Int)
    (h : ∀ k ∈ occ.map Prod.fst, labId < k) : occ.find labId = none := by
  induction occ with
  | nil => rfl
  | cons e rest ih =>
    obtain ⟨k, v⟩ := e
    have hk : labId < k := h k (by simp)
    have hne : ¬ k = labId := by omega
    simp only [Occupancy.find, hne, if_false]
    exact ih fun k1 hk1 => h k1 (by simp only [List.map_cons, List.mem_cons]; exact Or.inr hk1)

theorem Occupancy.find_insertSlot (occ : Occupancy) (hs : occ.KeySorted) (labId : Int)
    (slot : TimeSlot) (k1 : Int) :
    (occ.insertSlot labId slot).find k1 =
      if k1 = labId then some (slotSetInsert ((occ.find labId).getD []) slot)
      else occ.find k1 := by
  induction occ with
  | nil =>
    by_cases h : k1 = labId
    · subst h; simp [Occupancy.insertSlot, Occupancy.find]
    · have h1 : ¬ labId = k1 := fun e => h e.symm
      simp [Occupancy.insertSlot, Occupancy.find, h, h1]
  | cons e rest ih =>
    obtain ⟨k, v⟩ := e
    have hs1 : ∀ k2 ∈ rest.map Prod.fst, k < k2 := (List.pairwise_cons.1 hs).1
    have hs2 : Occupancy.KeySorted rest := (List.pairwise_cons.1 hs).2
    unfold Occupancy.insertSlot
    by_cases h1 : labId < k
    · have hnone : Occupancy.find ((k, v) :: rest) labId = none :=
        Occupancy.find_eq_none_of_lt _ _ (by
          intro k2 hk2
          simp only [List.map_cons, List.mem_cons] at hk2
          rcases hk2 with rfl | hk2
          · exact h1
          · exact lt_trans h1 (hs1 k2 hk2))
      by_cases h : k1 = labId
      · subst h
        simp only [h1, if_true]
        rw [hnone]
        simp [Occupancy.find]
      · have h2 : ¬ labId = k1 := fun e => h e.symm
        simp [h1, Occupancy.find, h, h2]
    · by_cases h2 : k < labId
      · have hne : ¬ k = labId := by omega
        simp only [h1, h2, if_true, if_false, Occupancy.find, hne]
        by_cases h3 : k = k1
        · have h4 : ¬ k1 = labId := by omega
          simp [h3, h4]
        · simp [h3, ih hs2]
      · have hk : k = labId := by omega
        subst hk
        by_cases h : k1 = k
        · subst h; simp [h1, Occupancy.find]
        · have h3 : ¬ k = k1 := fun e => h e.symm
          simp [h1, Occupancy.find, h, h3]

theorem Occupancy.insertSlot_keys (occ : Occupancy) (labId : Int) (slot : TimeSlot) (k1 : Int) :
    k1 ∈ (occ.insertSlot labId slot).map Prod.fst ↔ k1 = labId ∨ k1 ∈ occ.map Prod.fst := by
  induction occ with
  | nil => simp [Occupancy.insertSlot]
  | cons e rest ih =>
    obtain ⟨k, v⟩ := e
    unfold Occupancy.insertSlot
    by_cases h1 : labId < k
    · simp [h1]
    · by_cases h2 : k < labId
      · simp only [h1, h2, if_true, if_false, List.map_cons, List.mem_cons, ih]
        tauto
      · have hk : k = labId := by omega
        subst hk
        simp [h1]

theorem Occupancy.insertSlot_sorted (occ : Occupancy) (hs : occ.KeySorted) (labId : Int)
    (slot : TimeSlot) : (occ.insertSlot labId slot).KeySorted := by
  induction occ with
  | nil => simp [Occupancy.insertSlot, Occupancy.KeySorted]
  | cons e rest ih =>
    obtain ⟨k, v⟩ := e
    have hs1 : ∀ k2 ∈ rest.map Prod.fst, k < k2 := (List.pairwise_cons.1 hs).1
    have hs2 : Occupancy.KeySorted rest := (List.pairwise_cons.1 hs).2
    unfold Occupancy.insertSlot
    by_cases h1 : labId < k
    · simp only [h1, if_true]
      refine List.pairwise_cons.2 ⟨?_, hs⟩
      intro k2 hk2
      simp only [List.map_cons, List.mem_cons] at hk2
      rcases hk2 with rfl | hk2
      · exact h1
      · exact lt_trans h1 (hs1 k2 hk2)
    · by_cases h2 : k < labId
      · simp only [h1, h2, if_true, if_false]
        refine List.pairwise_cons.2 ⟨?_, ih hs2⟩
        intro k2 hk2
        rcases (Occupancy.insertSlot_keys rest labId slot k2).1 hk2 with rfl | hk2
        · exact h2
        · exact hs1 k2 hk2
      · simp only [h1, h2, if_false]
        exact List.pairwise_cons.2 ⟨hs1, hs2⟩

theorem isLabAvailable_mark (occ : Occupancy) (hs : occ.KeySorted) (labId : Int)
    (slot : TimeSlot) (k1 : Int) (y : TimeSlot) :
    isLabAvailable (markLabOccupied occ labId slot) k1 y = false ↔
      (k1 = labId ∧ y = slot) ∨ isLabAvailable occ k1 y = false := by
  unfold isLabAvailable markLabOccupied
  rw [Occupancy.find_insertSlot occ hs]
  by_cases h : k1 = labId
  · subst h
    cases hf : Occupancy.find occ k1 with
    | none => simp [slotSetContains_iff, mem_slotSetInsert]
    | some v => simp [slotSetContains_iff, mem_slotSetInsert]
  · simp [h]

/-! ## One request: what a scan does to the state -/

theorem Failed.refl (s : Scheduler) : Failed s s :=
  ⟨rfl, rfl, rfl, rfl, rfl, le_refl _⟩

theorem Failed.trans {s s1 s2 : Scheduler} (h1 : Failed s s1) (h2 : Failed s1 s2) :
    Failed s s2 :=
  ⟨h2.occupancy.trans h1.occupancy, h2.laboratories.trans h1.laboratories,
    h2.requests.trans h1.requests, h2.schedules.trans h1.schedules,
    h2.nextId.trans h1.nextId, le_trans h1.writes h2.writes⟩

theorem Commit.after_failed {ok : Nat → Bool} {request : LabRequest} {lab : Laboratory}
    {slot : TimeSlot} {s s1 s2 : Scheduler} (h1 : Failed s s1)
    (h2 : Commit ok request lab slot s1 s2) : Commit ok request lab slot s s2 where
  capacity := h2.capacity
  free := by rw [← h1.occupancy]; exact h2.free
  occupancy := by rw [← h1.occupancy]; exact h2.occupancy
  laboratories := h2.laboratories.trans h1.laboratories
  requests := h2.requests.trans h1.requests
  schedules := by rw [← h1.schedules, ← h1.nextId]; exact h2.schedules
  nextId := by rw [← h1.nextId]; exact h2.nextId
  writes := lt_of_le_of_lt h1.writes h2.writes
  written := h2.written

theorem Outcome.of_failed {ok : Nat → Bool} {request : LabRequest} {labs : List Laboratory}
    {P : TimeSlot → Prop} {s s1 : Scheduler} (h1 : Failed s s1) {r : Bool × Scheduler}
    (h2 : Outcome ok request labs P s1 r) : Outcome ok request labs P s r := by
  obtain ⟨b, s2⟩ := r
  cases b with
  | false => exact h1.trans h2
  | true =>
    obtain ⟨lab, slot, hl, hp, hc⟩ := h2
    exact ⟨lab, slot, hl, hp, hc.after_failed h1⟩

theorem Outcome.mono {ok : Nat → Bool} {request : LabRequest} {labs labs1 : List Laboratory}
    {P Q : TimeSlot → Prop} {s : Scheduler} {r : Bool × Scheduler}
    (hl : ∀ lab ∈ labs, lab ∈ labs1) (hp : ∀ slot, P slot → Q slot)
    (h : Outcome ok request labs P s r) : Outcome ok request labs1 Q s r := by
  obtain ⟨b, s2⟩ := r
  cases b with
  | false => exact h
  | true =>
    obtain ⟨lab, slot, hm, hps, hc⟩ := h
    exact ⟨lab, slot, hl lab hm, hp slot hps, hc⟩

theorem scanLabs_spec (ok : Nat → Bool) (request : LabRequest) (slot : TimeSlot)
    (labs : List Laboratory) (s : Scheduler) :
    Outcome ok request labs (fun x => x = slot) s (scanLabs ok request slot labs s) := by
  induction labs generalizing s with
  | nil => exact Failed.refl s
  | cons lab rest ih =>
    have hrest : ∀ l ∈ rest, l ∈ lab :: rest := fun l hl => List.mem_cons_of_mem _ hl
    unfold scanLabs
    by_cases hcap : lab.capacity < request.studentCount
    · simp only [hcap, if_true]
      exact (ih s).mono hrest fun _ h => h
    · by_cases hav : isLabAvailable s.labOccupancy lab.id slot = true
      · simp only [hcap, hav, if_false, Bool.not_true, Bool.false_eq_true]
        unfold Database.addSchedule
        by_cases hok : ok s.database.writes = true
        · simp only [hok, if_true]
          refine ⟨lab, slot, List.mem_cons_self _ _, rfl, ?_⟩
          exact {
            capacity := not_lt.1 hcap
            free := hav
            occupancy := rfl
            laboratories := rfl
            requests := rfl
            schedules := rfl
            nextId := rfl
            writes := Nat.lt_succ_self _
            written := by simpa using hok }
        · simp only [hok, if_false, Bool.false_eq_true]
          refine Outcome.of_failed ?_ ((ih _).mono hrest fun _ h => h)
          exact ⟨rfl, rfl, rfl, rfl, rfl, Nat.le_succ _⟩
      · have hav1 : isLabAvailable s.labOccupancy lab.id slot = false := by simpa using hav
        simp only [hcap, hav1, if_false, if_true, Bool.not_false]
        exact (ih s).mono hrest fun _ h => h

theorem phase1_spec (ok : Nat → Bool) (request : LabRequest) (labs : List Laboratory)
    (slots : List TimeSlot) (s : Scheduler) :
    Outcome ok request labs (fun x => x ∈ slots ∧ x ∉ request.excludedSlots) s
      (phase1 ok request labs slots s) := by
  induction slots generalizing s with
  | nil => exact Failed.refl s
  | cons p rest ih =>
    have hrest : ∀ x, (x ∈ rest ∧ x ∉ request.excludedSlots) →
        (x ∈ p :: rest ∧ x ∉ request.excludedSlots) :=
      fun x h => ⟨List.mem_cons_of_mem _ h.1, h.2⟩
    unfold phase1
    by_cases hex : isSlotExcluded p request.excludedSlots = true
    · simp only [hex, if_true]
      exact (ih s).mono (fun _ h => h) hrest
    · simp only [hex, if_false, Bool.false_eq_true]
      have hscan := scanLabs_spec ok request p labs s
      have hp : p ∉ request.excludedSlots := fun h => hex ((isSlotExcluded_iff _ _).2 h)
      rcases hsc : scanLabs ok request p labs s with ⟨b, s1⟩
      rw [hsc] at hscan
      cases b with
      | true =>
        exact hscan.mono (fun _ h => h) fun x hx => by
          subst hx; exact ⟨List.mem_cons_self _ _, hp⟩
      | false =>
        exact Outcome.of_failed hscan ((ih s1).mono (fun _ h => h) hrest)

theorem phase2_spec (ok : Nat → Bool) (request : LabRequest) (labs : List Laboratory)
    (slots : List TimeSlot) (s : Scheduler) :
    Outcome ok request labs
      (fun x => x ∈ slots ∧ x ∉ request.excludedSlots ∧ x ∉ request.preferredSlots) s
      (phase2 ok request labs slots s) := by
  induction slots generalizing s with
  | nil => exact Failed.refl s
  | cons p rest ih =>
    have hrest : ∀ x,
        (x ∈ rest ∧ x ∉ request.excludedSlots ∧ x ∉ request.preferredSlots) →
        (x ∈ p :: rest ∧ x ∉ request.excludedSlots ∧ x ∉ request.preferredSlots) :=
      fun x h => ⟨List.mem_cons_of_mem _ h.1, h.2⟩
    unfold phase2
    by_cases hex : isSlotExcluded p request.excludedSlots = true
    · simp only [hex, if_true]
      exact (ih s).mono (fun _ h => h) hrest
    · by_cases hpref : request.preferredSlots.any (fun q => q.eq p) = true
      · simp only [hex, hpref, if_true, if_false, Bool.false_eq_true]
        exact (ih s).mono (fun _ h => h) hrest
      · simp only [hex, hpref, if_false, Bool.false_eq_true]
        have hscan := scanLabs_spec ok request p labs s
        have hp : p ∉ request.excludedSlots := fun h => hex ((isSlotExcluded_iff _ _).2 h)
        have hq : p ∉ request.preferredSlots := fun h => hpref ((preferred_any_iff _ _).2 h)
        rcases hsc : scanLabs ok request p labs s with ⟨b, s1⟩
        rw [hsc] at hscan
        cases b with
        | true =>
          exact hscan.mono (fun _ h => h) fun x hx => by
            subst hx; exact ⟨List.mem_cons_self _ _, hp, hq⟩
        | false =>
          exact Outcome.of_failed hscan ((ih s1).mono (fun _ h => h) hrest)

theorem allocateRequest_spec (ok : Nat → Bool) (request : LabRequest) (labs : List Laboratory)
    (s : Scheduler) :
    Outcome ok request labs
      (fun x => x ∉ request.excludedSlots ∧
        (x ∈ request.preferredSlots ∨ x ∈ getAllPossibleSlots)) s
      (allocateRequest ok request labs s) := by
  unfold allocateRequest
  have h1 := phase1_spec ok request labs request.preferredSlots s
  rcases hp : phase1 ok request labs request.preferredSlots s with ⟨b, s1⟩
  rw [hp] at h1
  cases b with
  | true => exact h1.mono (fun _ h => h) fun x hx => ⟨hx.2, Or.inl hx.1⟩
  | false =>
    exact Outcome.of_failed h1
      ((phase2_spec ok request labs getAllPossibleSlots s1).mono (fun _ h => h)
        fun x hx => ⟨hx.2.1, Or.inr hx.1⟩)

/-! ## The request loop -/

theorem Failed.preserves_consistent {s s1 : Scheduler} (h : Failed s s1) (hc : Consistent s) :
    Consistent s1 where
  sorted := by rw [h.occupancy]; exact hc.sorted
  marked := by rw [h.occupancy, h.schedules]; exact hc.marked
  nodup := by rw [h.schedules]; exact hc.nodup

theorem Commit.extends_consistent {ok : Nat → Bool} {request : LabRequest} {lab : Laboratory}
    {slot : TimeSlot} {s s1 : Scheduler} (h : Commit ok request lab slot s s1)
    (hc : Consistent s) : Consistent s1 where
  sorted := by
    rw [h.occupancy]
    exact Occupancy.insertSlot_sorted _ hc.sorted _ _
  marked := by
    intro labId y
    rw [h.occupancy, h.schedules, isLabAvailable_mark _ hc.sorted, hc.marked]
    simp only [List.map_append, List.map_cons, List.map_nil, List.mem_append,
      List.mem_singleton, Schedule.booking, Prod.mk.injEq]
    tauto
  nodup := by
    rw [h.schedules, List.map_append]
    refine List.Nodup.append hc.nodup (List.nodup_singleton _) ?_
    intro b hb hb1
    simp only [List.map_cons, List.map_nil, List.mem_singleton, Schedule.booking] at hb1
    subst hb1
    have hfalse := (hc.marked lab.id slot).2 hb
    rw [h.free] at hfalse
    exact Bool.noConfusion hfalse

theorem Outcome.consistent {ok : Nat → Bool} {request : LabRequest} {labs : List Laboratory}
    {P : TimeSlot → Prop} {s : Scheduler} {r : Bool × Scheduler}
    (h : Outcome ok request labs P s r) (hc : Consistent s) : Consistent r.2 := by
  obtain ⟨b, s1⟩ := r
  cases b with
  | false => exact Failed.preserves_consistent h hc
  | true =>
    obtain ⟨lab, slot, _, _, hcm⟩ := h
    exact hcm.extends_consistent hc

theorem scheduleLoop_consistent (ok : Nat → Bool) (labs : List Laboratory)
    (requests : List LabRequest) (s : Scheduler) (n : Int) (hc : Consistent s) :
    Consistent (scheduleLoop ok labs requests s n).2 := by
  induction requests generalizing s n with
  | nil => exact hc
  | cons r rest ih =>
    have hsp := (allocateRequest_spec ok r labs s).consistent hc
    rcases h : allocateRequest ok r labs s with ⟨b, s1⟩
    rw [h] at hsp
    cases b <;> simp only [scheduleLoop, h] <;> exact ih _ _ hsp

theorem scheduleLoop_spec (ok : Nat → Bool) (labs : List Laboratory)
    (requests : List LabRequest) (s : Scheduler) (n : Int) :
    ∃ served new, served.Sublist requests ∧
      List.Forall₂ (CommittedFor labs) served new ∧
      (scheduleLoop ok labs requests s n).2.database.schedules = s.database.schedules ++ new ∧
      (scheduleLoop ok labs requests s n).1 = n + (served.length : Int) ∧
      (scheduleLoop ok labs requests s n).2.database.laboratories = s.database.laboratories ∧
      (scheduleLoop ok labs requests s n).2.database.requests = s.database.requests := by
  induction requests generalizing s n with
  | nil => exact ⟨[], [], List.Sublist.slnil, List.Forall₂.nil, by simp [scheduleLoop],
      by simp [scheduleLoop], rfl, rfl⟩
  | cons r rest ih =>
    have hsp := allocateRequest_spec ok r labs s
    rcases h : allocateRequest ok r labs s with ⟨b, s1⟩
    rw [h] at hsp
    cases b with
    | false =>
      obtain ⟨served, new, hsub, hf, hsch, hcnt, hl, hr⟩ := ih s1 n
      refine ⟨served, new, hsub.cons r, hf, ?_, ?_, ?_, ?_⟩ <;> simp only [scheduleLoop, h]
      · rw [hsch, Failed.schedules hsp]
      · exact hcnt
      · rw [hl, Failed.laboratories hsp]
      · rw [hr, Failed.requests hsp]
    | true =>
      obtain ⟨lab, slot, hlab, hP, hc⟩ := hsp
      obtain ⟨served, new, hsub, hf, hsch, hcnt, hl, hr⟩ := ih s1 (n + 1)
      refine ⟨r :: served,
        { id := s.database.nextId, requestId := r.id, labId := lab.id, timeSlot := slot } :: new,
        hsub.cons₂ r, List.Forall₂.cons ⟨rfl, hP.1, hP.2, lab, hlab, rfl, hc.capacity⟩ hf,
        ?_, ?_, ?_, ?_⟩ <;> simp only [scheduleLoop, h]
      · rw [hsch, hc.schedules, List.append_assoc, List.singleton_append]
      · rw [hcnt, List.length_cons]; push_cast; ring
      · rw [hl, hc.laboratories]
      · rw [hr, hc.requests]

theorem scheduleLoop_count (ok : Nat → Bool) (labs : List Laboratory)
    (requests : List LabRequest) (s : Scheduler) (n : Int) :
    (scheduleLoop ok labs requests s n).1 =
      n + ((allocResults ok labs requests s).count true : Int) := by
  induction requests generalizing s n with
  | nil => simp [scheduleLoop, allocResults]
  | cons r rest ih =>
    rcases h : allocateRequest ok r labs s with ⟨b, s1⟩
    cases b
    · simp only [scheduleLoop, allocResults, h, ih]
      simp
    · simp only [scheduleLoop, allocResults, h, ih, List.count_cons_self]
      push_cast; ring

theorem scanLabs_nil_labs (ok : Nat → Bool) (request : LabRequest) (slot : TimeSlot)
    (s : Scheduler) : scanLabs ok request slot [] s = (false, s) := rfl

theorem phase1_nil_labs (ok : Nat → Bool) (request : LabRequest) (slots : List TimeSlot)
    (s : Scheduler) : phase1 ok request [] slots s = (false, s) := by
  induction slots with
  | nil => rfl
  | cons p rest ih =>
    unfold phase1
    split_ifs
    · exact ih
    · simp only [scanLabs_nil_labs, ih]

theorem phase2_nil_labs (ok : Nat → Bool) (request : LabRequest) (slots : List TimeSlot)
    (s : Scheduler) : phase2 ok request [] slots s = (false, s) := by
  induction slots with
  | nil => rfl
  | cons p rest ih =>
    unfold phase2
    split_ifs
    · exact ih
    · exact ih
    · simp only [scanLabs_nil_labs, ih]

theorem allocateRequest_nil_labs (ok : Nat → Bool) (request : LabRequest) (s : Scheduler) :
    allocateRequest ok request [] s = (false, s) := by
  simp only [allocateRequest, phase1_nil_labs, phase2_nil_labs]

theorem scheduleLoop_nil_labs (ok : Nat → Bool) (requests : List LabRequest) (s : Scheduler)
    (n : Int) : scheduleLoop ok [] requests s n = (n, s) := by
  induction requests with
  | nil => rfl
  | cons r rest ih => simp only [scheduleLoop, allocateRequest_nil_labs, ih]

theorem clearSchedules_laboratories (deleted : Bool) (db : Database) :
    (db.clearSchedules deleted).2.laboratories = db.laboratories := by
  cases deleted <;> rfl

theorem clearSchedules_requests (deleted : Bool) (db : Database) :
    (db.clearSchedules deleted).2.requests = db.requests := by
  cases deleted <;> rfl

theorem clearSchedules_writes (deleted : Bool) (db : Database) :
    (db.clearSchedules deleted).2.writes = db.writes := by
  cases deleted <;> rfl

/-- The run is the request loop started from the state left by step 1; with no
rooms or no requests the loop itself yields count 0 and that state. -/
theorem generateSchedule_eq_loop (deleted : Bool) (ok : Nat → Bool) (s : Scheduler) :
    generateSchedule deleted ok s =
      scheduleLoop ok s.database.laboratories s.database.requests (startState deleted s) 0 := by
  unfold generateSchedule startState
  simp only [clearSchedules_laboratories, clearSchedules_requests]
  cases hl : s.database.laboratories with
  | nil => simp [scheduleLoop_nil_labs]
  | cons lab labs =>
    cases hr : s.database.requests with
    | nil => simp [scheduleLoop]
    | cons r rs => simp

theorem consistent_cleared (s : Scheduler) : Consistent (startState true s) where
  sorted := by simp [Occupancy.KeySorted, startState]
  marked := by
    intro labId slot
    simp [isLabAvailable, Occupancy.find, Database.clearSchedules, startState]
  nodup := by simp [Database.clearSchedules, startState]

theorem generateSchedule_consistent (ok : Nat → Bool) (s : Scheduler) :
    Consistent (generateSchedule true ok s).2 := by
  rw [generateSchedule_eq_loop]
  exact scheduleLoop_consistent _ _ _ _ _ (consistent_cleared _)

/-! ## Rows that survive a failed `DELETE` -/

theorem withStale_nil (s : Scheduler) : withStale [] s = s := rfl

theorem startState_eq (deleted : Bool) (s : Scheduler) :
    startState deleted s = withStale (survivors deleted s) (startState true s) := by
  cases deleted
  · simp [startState, withStale, survivors, Database.clearSchedules]
  · rfl

theorem scanLabs_withStale (ok : Nat → Bool) (request : LabRequest) (slot : TimeSlot)
    (labs : List Laboratory) (stale : List Schedule) (s : Scheduler) :
    scanLabs ok request slot labs (withStale stale s) =
      ((scanLabs ok request slot labs s).1,
        withStale stale (scanLabs ok request slot labs s).2) := by
  induction labs generalizing s with
  | nil => rfl
  | cons lab rest ih =>
    have hocc : (withStale stale s).labOccupancy = s.labOccupancy := rfl
    have hw : (withStale stale s).database.writes = s.database.writes := rfl
    simp only [scanLabs, hocc]
    by_cases hcap : lab.capacity < request.studentCount
    · simp only [hcap, if_true]
      exact ih s
    · by_cases hav : isLabAvailable s.labOccupancy lab.id slot = true
      · simp only [hcap, hav, if_false, Bool.not_true, Bool.false_eq_true,
          Database.addSchedule, hw]
        by_cases hok : ok s.database.writes = true
        · simp only [hok, if_true, withStale, List.append_assoc]
        · simp only [hok, if_false, Bool.false_eq_true]
          exact ih { s with database := { s.database with writes := s.database.writes + 1 } }
      · have hav1 : isLabAvailable s.labOccupancy lab.id slot = false := by simpa using hav
        simp only [hcap, hav1, if_false, if_true, Bool.not_false]
        exact ih s

theorem phase1_withStale (ok : Nat → Bool) (request : LabRequest) (labs : List Laboratory)
    (slots : List TimeSlot) (stale : List Schedule) (s : Scheduler) :
    phase1 ok request labs slots (withStale stale s) =
      ((phase1 ok request labs slots s).1,
        withStale stale (phase1 ok request labs slots s).2) := by
  induction slots generalizing s with
  | nil => rfl
  | cons p rest ih =>
    simp only [phase1, scanLabs_withStale]
    by_cases hex : isSlotExcluded p request.excludedSlots = true
    · simp only [hex, if_true]
      exact ih s
    · simp only [hex, if_false, Bool.false_eq_true]
      rcases hsc : scanLabs ok request p labs s with ⟨b, s1⟩
      cases b with
      | true => rfl
      | false => exact ih s1

theorem phase2_withStale (ok : Nat → Bool) (request : LabRequest) (labs : List Laboratory)
    (slots : List TimeSlot) (stale : List Schedule) (s : Scheduler) :
    phase2 ok request labs slots (withStale stale s) =
      ((phase2 ok request labs slots s).1,
        withStale stale (phase2 ok request labs slots s).2) := by
  induction slots generalizing s with
  | nil => rfl
  | cons p rest ih =>
    simp only [phase2, scanLabs_withStale]
    by_cases hex : isSlotExcluded p request.excludedSlots = true
    · simp only [hex, if_true]
      exact ih s
    · by_cases hpref : request.preferredSlots.any (fun q => q.eq p) = true
      · simp only [hex, hpref, if_true, if_false, Bool.false_eq_true]
        exact ih s
      · simp only [hex, hpref, if_false, Bool.false_eq_true]
        rcases hsc : scanLabs ok request p labs s with ⟨b, s1⟩
        cases b with
        | true => rfl
        | false => exact ih s1

theorem allocateRequest_withStale (ok : Nat → Bool) (request : LabRequest)
    (labs : List Laboratory) (stale : List Schedule) (s : Scheduler) :
    allocateRequest ok request labs (withStale stale s) =
      ((allocateRequest ok request labs s).1,
        withStale stale (allocateRequest ok request labs s).2) := by
  simp only [allocateRequest, phase1_withStale]
  rcases hp : phase1 ok request labs request.preferredSlots s with ⟨b, s1⟩
  cases b with
  | true => rfl
  | false => exact phase2_withStale ok request labs getAllPossibleSlots stale s1

theorem scheduleLoop_withStale (ok : Nat → Bool) (labs : List Laboratory)
    (requests : List LabRequest) (stale : List Schedule) (s : Scheduler) (n : Int) :
    scheduleLoop ok labs requests (withStale stale s) n =
      ((scheduleLoop ok labs requests s n).1,
        withStale stale (scheduleLoop ok labs requests s n).2) := by
  induction requests generalizing s n with
  | nil => rfl
  | cons r rest ih =>
    simp only [scheduleLoop, allocateRequest_withStale]
    rcases h : allocateRequest ok r labs s with ⟨b, s1⟩
    cases b with
    | true => exact ih s1 (n + 1)
    | false => exact ih s1 n

/-- A run whose `DELETE` failed is the run whose `DELETE` succeeded with the
surviving rows in front of the table: same return value, same occupancy, same
rows committed. -/
theorem generateSchedule_survivors (deleted : Bool) (ok : Nat → Bool) (s : Scheduler) :
    generateSchedule deleted ok s =
      ((generateSchedule true ok s).1,
        withStale (survivors deleted s) (generateSchedule true ok s).2) := by
  rw [generateSchedule_eq_loop, generateSchedule_eq_loop, startState_eq deleted,
    scheduleLoop_withStale]

theorem generateSchedule_table (deleted : Bool) (ok : Nat → Bool) (s : Scheduler) :
    (generateSchedule deleted ok s).2.database.schedules =
      survivors deleted s ++ (generateSchedule true ok s).2.database.schedules := by
  rw [generateSchedule_survivors]
  rfl

/-- The rows committed by a run are the table of the run whose `DELETE`
succeeded. -/
theorem committedRows_eq (deleted : Bool) (ok : Nat → Bool) (s : Scheduler) :
    committedRows deleted ok s = (generateSchedule true ok s).2.database.schedules := by
  unfold committedRows
  rw [generateSchedule_table, List.drop_left]

/-- When the `DELETE` succeeds the committed rows are the whole table. -/
theorem committedRows_deleted (ok : Nat → Bool) (s : Scheduler) :
    committedRows true ok s = (generateSchedule true ok s).2.database.schedules :=
  committedRows_eq true ok s

theorem generateSchedule_fst (deleted : Bool) (ok : Nat → Bool) (s : Scheduler) :
    (generateSchedule deleted ok s).1 = (generateSchedule true ok s).1 := by
  rw [generateSchedule_survivors]

theorem generateSchedule_occupancy (deleted : Bool) (ok : Nat → Bool) (s : Scheduler) :
    (generateSchedule deleted ok s).2.labOccupancy =
      (generateSchedule true ok s).2.labOccupancy := by
  rw [generateSchedule_survivors]
  rfl

theorem committedRows_nodup (deleted : Bool) (ok : Nat → Bool) (s : Scheduler) :
    ((committedRows deleted ok s).map Schedule.booking).Nodup := by
  rw [committedRows_eq]
  exact (generateSchedule_consistent ok s).nodup

theorem generateSchedule_spec (deleted : Bool) (ok : Nat → Bool) (s : Scheduler) :
    ∃ served, served.Sublist s.database.requests ∧
      List.Forall₂ (CommittedFor s.database.laboratories) served
        (committedRows deleted ok s) ∧
      (generateSchedule deleted ok s).1 = (served.length : Int) ∧
      (generateSchedule deleted ok s).2.database.laboratories = s.database.laboratories ∧
      (generateSchedule deleted ok s).2.database.requests = s.database.requests := by
  have hrows : committedRows deleted ok s =
      (generateSchedule deleted ok s).2.database.schedules.drop (survivors deleted s).length :=
    rfl
  rw [hrows, generateSchedule_eq_loop]
  obtain ⟨served, new, hsub, hf, hsch, hcnt, hl, hr⟩ :=
    scheduleLoop_spec ok s.database.laboratories s.database.requests (startState deleted s) 0
  refine ⟨served, hsub, ?_, ?_, ?_, ?_⟩
  · rw [hsch]
    have : (startState deleted s).database.schedules = survivors deleted s := rfl
    rw [this, List.drop_left]
    exact hf
  · rw [hcnt]; simp
  · rw [hl]; exact clearSchedules_laboratories deleted s.database
  · rw [hr]; exact clearSchedules_requests deleted s.database

theorem forall₂_mem_right {α β : Type} {R : α → β → Prop} {l1 : List α} {l2 : List β}
    (h : List.Forall₂ R l1 l2) {b : β} (hb : b ∈ l2) : ∃ a ∈ l1, R a b := by
  induction h with
  | nil => cases hb
  | cons hab _ ih =>
    rcases List.mem_cons.1 hb with rfl | hb1
    · exact ⟨_, List.mem_cons_self _ _, hab⟩
    · obtain ⟨a, ha, hr⟩ := ih hb1
      exact ⟨a, List.mem_cons_of_mem _ ha, hr⟩

theorem committedFor_requestIds {labs : List Laboratory} {served : List LabRequest}
    {rows : List Schedule} (h : List.Forall₂ (CommittedFor labs) served rows) :
    rows.map Schedule.requestId = served.map LabRequest.id := by
  induction h with
  | nil => rfl
  | cons hab _ ih => simp only [List.map_cons, ih, hab.1]

theorem eq_of_nodup_map {α β : Type} (f : α → β) {l : List α} (hn : (l.map f).Nodup)
    {a b : α} (ha : a ∈ l) (hb : b ∈ l) (hab : f a = f b) : a = b :=
  List.inj_on_of_nodup_map hn ha hb hab

/-! ## Properties of a scheduling run -/

/-- C1 — no double-booking: for every rooms list, every requests list and every
outcome of the persistence writes (of the `DELETE` of step 1 as well), any two
rows committed by one run of `generateSchedule` (rows at different positions)
differ in their `(labId, timeSlot)` pair.  When the `DELETE` succeeds the
committed rows are all the rows of the table (`committedRows_deleted`). -/
theorem C1_no_double_booking (deleted : Bool) (ok : Nat → Bool) (s : Scheduler) :
    (committedRows deleted ok s).Pairwise
      fun a b => ¬ (a.labId = b.labId ∧ a.timeSlot = b.timeSlot) := by
  have h := committedRows_nodup deleted ok s
  rw [List.Nodup, List.pairwise_map] at h
  refine h.imp ?_
  intro a b hne hab
  exact hne (by simp only [Schedule.booking, hab.1, hab.2])

/-- C2 — capacity respected: when room ids are pairwise distinct and request ids
are pairwise distinct, every row committed by a run names a room of the list
and a request of the list, and the room and the request it names satisfy
`room.capacity >= request.studentCount`, whatever the outcome of the `DELETE`
of step 1 and of the writes. -/
theorem C2_capacity_respected (deleted : Bool) (ok : Nat → Bool) (s : Scheduler)
    (hlabs : (s.database.laboratories.map Laboratory.id).Nodup)
    (hreqs : (s.database.requests.map LabRequest.id).Nodup) :
    ∀ sch ∈ (committedRows deleted ok s),
      (∃ lab ∈ s.database.laboratories, lab.id = sch.labId) ∧
      (∃ request ∈ s.database.requests, request.id = sch.requestId) ∧
      ∀ lab ∈ s.database.laboratories, ∀ request ∈ s.database.requests,
        lab.id = sch.labId → request.id = sch.requestId →
        request.studentCount ≤ lab.capacity := by
  intro sch hsch
  obtain ⟨served, hsub, hf, _, _, _⟩ := generateSchedule_spec deleted ok s
  obtain ⟨r0, hr0, hid, _, _, lab0, hlab0, hlid, hcap⟩ := forall₂_mem_right hf hsch
  have hr0mem : r0 ∈ s.database.requests := hsub.subset hr0
  refine ⟨⟨lab0, hlab0, hlid⟩, ⟨r0, hr0mem, hid.symm⟩, ?_⟩
  intro lab hlab request hreq h1 h2
  have e1 : lab = lab0 := eq_of_nodup_map Laboratory.id hlabs hlab hlab0 (h1.trans hlid.symm)
  have e2 : request = r0 := eq_of_nodup_map LabRequest.id hreqs hreq hr0mem (h2.trans hid)
  rw [e1, e2]
  exact hcap

/-- Witness of C2: the row stored for the first request of `test_algorithm.cpp`. -/
theorem C2_capacity_respected_witness :
    (∃ lab ∈ testScheduler.database.laboratories, lab.id = testRow1.labId) ∧
    (∃ request ∈ testScheduler.database.requests, request.id = testRow1.requestId) ∧
    ∀ lab ∈ testScheduler.database.laboratories,
      ∀ request ∈ testScheduler.database.requests,
      lab.id = testRow1.labId → request.id = testRow1.requestId →
      request.studentCount ≤ lab.capacity :=
  C2_capacity_respected true allOk testScheduler (by decide) (by decide) testRow1 (by decide)

/-- C3 — exclusion respected: the rows committed by a run are, in order, the rows
committed for a sub-list `served` of the requests (those whose allocation
succeeded); each row carries the id of the request it was committed for and its
time slot is not a member of that request's `excludedSlots`, in phase 1 and in
phase 2 alike, whatever the outcome of the `DELETE` of step 1 and of the
writes. -/
theorem C3_exclusion_respected (deleted : Bool) (ok : Nat → Bool) (s : Scheduler) :
    ∃ served : List LabRequest, served.Sublist s.database.requests ∧
      List.Forall₂
        (fun request sch => sch.requestId = request.id ∧
          sch.timeSlot ∉ request.excludedSlots)
        served (committedRows deleted ok s) := by
  obtain ⟨served, hsub, hf, _, _, _⟩ := generateSchedule_spec deleted ok s
  exact ⟨served, hsub, hf.imp fun _ _ h => ⟨h.1, h.2.1⟩⟩

/-- C4 — at most one assignment per request: when request ids are pairwise
distinct, the `requestId`s of the rows committed by a run are pairwise
distinct, so for every request id the run commits at most one row, whatever the
outcome of the `DELETE` of step 1 and of the writes. -/
theorem C4_one_assignment_per_request (deleted : Bool) (ok : Nat → Bool) (s : Scheduler)
    (hreqs : (s.database.requests.map LabRequest.id).Nodup) :
    ((committedRows deleted ok s).map Schedule.requestId).Nodup ∧
    ∀ rid : Int,
      ((committedRows deleted ok s).filter
        fun sch => sch.requestId = rid).length ≤ 1 := by
  obtain ⟨served, hsub, hf, _, _, _⟩ := generateSchedule_spec deleted ok s
  have hnd : ((committedRows deleted ok s).map Schedule.requestId).Nodup := by
    rw [committedFor_requestIds hf]
    exact (hsub.map LabRequest.id).nodup hreqs
  refine ⟨hnd, fun rid => ?_⟩
  have hcount := List.nodup_iff_count_le_one.1 hnd rid
  have hmap : ((committedRows deleted ok s).filter
      fun sch => sch.requestId = rid).map Schedule.requestId =
      ((committedRows deleted ok s).map Schedule.requestId).filter
        fun r => r = rid := by
    rw [List.filter_map]; rfl
  have hlen := congrArg List.length hmap
  rw [List.length_map] at hlen
  rw [hlen, ← List.countP_eq_length_filter]
  have hc : List.countP (fun r => decide (r = rid))
      ((committedRows deleted ok s).map Schedule.requestId) =
      List.count rid
        ((committedRows deleted ok s).map Schedule.requestId) := by
    rw [List.count]
    rfl
  rw [hc]
  exact hcount

/-- Witness of C4 on the rooms and requests of `test_algorithm.cpp`. -/
theorem C4_one_assignment_per_request_witness :
    ((committedRows true allOk testScheduler).map
      Schedule.requestId).Nodup ∧
    ∀ rid : Int,
      ((committedRows true allOk testScheduler).filter
        fun sch => sch.requestId = rid).length ≤ 1 :=
  C4_one_assignment_per_request true allOk testScheduler (by decide)

/-! ## Scans when every write succeeds -/

theorem scanLabs_allOk (request : LabRequest) (slot : TimeSlot) (labs : List Laboratory)
    (s : Scheduler) :
    scanLabs allOk request slot labs s =
      match labs.find? (roomFits s.labOccupancy request slot) with
      | some lab => (true, commitState s request lab slot)
      | none => (false, s) := by
  induction labs with
  | nil => rfl
  | cons lab rest ih =>
    unfold scanLabs
    by_cases hcap : lab.capacity < request.studentCount
    · have hfit : roomFits s.labOccupancy request slot lab = false := by
        simp [roomFits, hcap]
      simp only [hcap, if_true, List.find?_cons, hfit, ih]
    · by_cases hav : isLabAvailable s.labOccupancy lab.id slot = true
      · have hfit : roomFits s.labOccupancy request slot lab = true := by
          simp [roomFits, not_lt.1 hcap, hav]
        simp only [hcap, hav, if_false, Bool.not_true, Bool.false_eq_true, List.find?_cons,
          hfit, Database.addSchedule, allOk, if_true, commitState]
      · have hav1 : isLabAvailable s.labOccupancy lab.id slot = false := by simpa using hav
        have hfit : roomFits s.labOccupancy request slot lab = false := by
          simp [roomFits, hav1]
        simp only [hcap, hav1, if_false, if_true, Bool.not_false, List.find?_cons, hfit, ih]

/-- C5 — preference priority: if every write succeeds, the request's first
preferred slot `p` is not excluded and some room of the list has
`capacity >= studentCount` and is available at `p` when the request is
processed, then `allocateRequest` returns success and appends exactly one row,
for this request, at slot `p` (in the first fitting room), not at a later
preferred slot nor at a phase-2 slot. -/
theorem C5_preference_priority (request : LabRequest) (labs : List Laboratory)
    (s : Scheduler) (p : TimeSlot) (rest : List TimeSlot)
    (hpref : request.preferredSlots = p :: rest)
    (hex : p ∉ request.excludedSlots)
    (hroom : ∃ lab ∈ labs, request.studentCount ≤ lab.capacity ∧
      isLabAvailable s.labOccupancy lab.id p = true) :
    (allocateRequest allOk request labs s).1 = true ∧
    ∃ lab ∈ labs, request.studentCount ≤ lab.capacity ∧
      isLabAvailable s.labOccupancy lab.id p = true ∧
      (allocateRequest allOk request labs s).2.database.schedules =
        s.database.schedules ++
          [{ id := s.database.nextId, requestId := request.id, labId := lab.id,
             timeSlot := p }] := by
  have hex1 : isSlotExcluded p request.excludedSlots = false := by
    cases h : isSlotExcluded p request.excludedSlots with
    | false => rfl
    | true => exact absurd ((isSlotExcluded_iff _ _).1 h) hex
  cases hfind : labs.find? (roomFits s.labOccupancy request p) with
  | none =>
    obtain ⟨lab, hlab, hcap, hav⟩ := hroom
    have hno := List.find?_eq_none.1 hfind lab hlab
    simp [roomFits, hcap, hav] at hno
  | some lab =>
    have hmem : lab ∈ labs := List.mem_of_find?_eq_some hfind
    have hfit : roomFits s.labOccupancy request p lab = true := List.find?_some hfind
    simp only [roomFits, Bool.and_eq_true, decide_eq_true_eq] at hfit
    have hrun : allocateRequest allOk request labs s = (true, commitState s request lab p) := by
      unfold allocateRequest
      rw [hpref]
      unfold phase1
      simp only [hex1, Bool.false_eq_true, if_false, scanLabs_allOk, hfind]
    rw [hrun]
    exact ⟨rfl, lab, hmem, hfit.1, hfit.2, rfl⟩

/-- Witness of C5: the first request of `test_algorithm.cpp` on the three test
rooms, all free. -/
theorem C5_preference_priority_witness :
    (allocateRequest allOk testRequest1 testLabs testScheduler).1 = true ∧
    ∃ lab ∈ testLabs, testRequest1.studentCount ≤ lab.capacity ∧
      isLabAvailable testScheduler.labOccupancy lab.id ⟨9, 0, 0⟩ = true ∧
      (allocateRequest allOk testRequest1 testLabs testScheduler).2.database.schedules =
        testScheduler.database.schedules ++
          [{ id := testScheduler.database.nextId, requestId := testRequest1.id,
             labId := lab.id, timeSlot := ⟨9, 0, 0⟩ }] :=
  C5_preference_priority testRequest1 testLabs testScheduler ⟨9, 0, 0⟩
    [⟨9, 1, 0⟩, ⟨9, 2, 0⟩, ⟨9, 3, 0⟩, ⟨9, 4, 0⟩] rfl (by decide)
    ⟨{ id := 1, location := "A301", capacity := 40 }, by decide, by decide, by decide⟩

/-! ## Two runs in step -/

theorem Agree.of_failed_both {ok1 ok2 : Nat → Bool} {s1 s2 : Scheduler}
    (h : InStep ok1 ok2 s1 s2) : Agree ok1 ok2 (false, s1) (false, s2) :=
  ⟨rfl, h⟩

theorem scanLabs_inStep {ok1 ok2 : Nat → Bool} (request : LabRequest) (slot : TimeSlot)
    (labs : List Laboratory) {s1 s2 : Scheduler} (h : InStep ok1 ok2 s1 s2) :
    Agree ok1 ok2 (scanLabs ok1 request slot labs s1) (scanLabs ok2 request slot labs s2) := by
  induction labs generalizing s1 s2 with
  | nil => exact Agree.of_failed_both h
  | cons lab rest ih =>
    unfold scanLabs
    rw [h.occupancy]
    by_cases hcap : lab.capacity < request.studentCount
    · simp only [hcap, if_true]
      exact ih h
    · by_cases hav : isLabAvailable s2.labOccupancy lab.id slot = true
      · have hw : ok1 s1.database.writes = ok2 s2.database.writes := by
          simpa using h.outcomes 0
        simp only [hcap, hav, if_false, Bool.not_true, Bool.false_eq_true,
          Database.addSchedule, hw]
        by_cases hok : ok2 s2.database.writes = true
        · simp only [hok, if_true]
          refine ⟨rfl, ?_, ?_, ?_⟩
          · exact rfl
          · simp only [List.map_append, h.triples, List.map_cons, List.map_nil,
              Schedule.triple]
          · intro n
            have := h.outcomes (n + 1)
            simpa [Nat.add_assoc, Nat.add_comm 1 n] using this
        · simp only [hok, if_false, Bool.false_eq_true]
          refine ih ⟨rfl, h.triples, ?_⟩
          intro n
          have := h.outcomes (n + 1)
          simpa [Nat.add_assoc, Nat.add_comm 1 n] using this
      · have hav1 : isLabAvailable s2.labOccupancy lab.id slot = false := by simpa using hav
        simp only [hcap, hav1, if_false, if_true, Bool.not_false]
        exact ih h

theorem phase1_inStep {ok1 ok2 : Nat → Bool} (request : LabRequest) (labs : List Laboratory)
    (slots : List TimeSlot) {s1 s2 : Scheduler} (h : InStep ok1 ok2 s1 s2) :
    Agree ok1 ok2 (phase1 ok1 request labs slots s1) (phase1 ok2 request labs slots s2) := by
  induction slots generalizing s1 s2 with
  | nil => exact Agree.of_failed_both h
  | cons p rest ih =>
    unfold phase1
    by_cases hex : isSlotExcluded p request.excludedSlots = true
    · simp only [hex, if_true]
      exact ih h
    · simp only [hex, if_false, Bool.false_eq_true]
      have hscan := scanLabs_inStep request p labs h
      rcases e1 : scanLabs ok1 request p labs s1 with ⟨b1, t1⟩
      rcases e2 : scanLabs ok2 request p labs s2 with ⟨b2, t2⟩
      rw [e1, e2] at hscan
      obtain ⟨hb, hs⟩ := hscan
      simp only at hb hs
      subst hb
      cases b1 with
      | true => exact ⟨rfl, hs⟩
      | false => exact ih hs

theorem phase2_inStep {ok1 ok2 : Nat → Bool} (request : LabRequest) (labs : List Laboratory)
    (slots : List TimeSlot) {s1 s2 : Scheduler} (h : InStep ok1 ok2 s1 s2) :
    Agree ok1 ok2 (phase2 ok1 request labs slots s1) (phase2 ok2 request labs slots s2) := by
  induction slots generalizing s1 s2 with
  | nil => exact Agree.of_failed_both h
  | cons p rest ih =>
    unfold phase2
    by_cases hex : isSlotExcluded p request.excludedSlots = true
    · simp only [hex, if_true]
      exact ih h
    · by_cases hpref : request.preferredSlots.any (fun q => q.eq p) = true
      · simp only [hex, hpref, if_true, if_false, Bool.false_eq_true]
        exact ih h
      · simp only [hex, hpref, if_false, Bool.false_eq_true]
        have hscan := scanLabs_inStep request p labs h
        rcases e1 : scanLabs ok1 request p labs s1 with ⟨b1, t1⟩
        rcases e2 : scanLabs ok2 request p labs s2 with ⟨b2, t2⟩
        rw [e1, e2] at hscan
        obtain ⟨hb, hs⟩ := hscan
        simp only at hb hs
        subst hb
        cases b1 with
        | true => exact ⟨rfl, hs⟩
        | false => exact ih hs

theorem allocateRequest_inStep {ok1 ok2 : Nat → Bool} (request : LabRequest)
    (labs : List Laboratory) {s1 s2 : Scheduler} (h : InStep ok1 ok2 s1 s2) :
    Agree ok1 ok2 (allocateRequest ok1 request labs s1) (allocateRequest ok2 request labs s2) := by
  unfold allocateRequest
  have hp := phase1_inStep request labs request.preferredSlots h
  rcases e1 : phase1 ok1 request labs request.preferredSlots s1 with ⟨b1, t1⟩
  rcases e2 : phase1 ok2 request labs request.preferredSlots s2 with ⟨b2, t2⟩
  rw [e1, e2] at hp
  obtain ⟨hb, hs⟩ := hp
  simp only at hb hs
  subst hb
  cases b1 with
  | true => exact ⟨rfl, hs⟩
  | false => exact phase2_inStep request labs getAllPossibleSlots hs

theorem scheduleLoop_inStep {ok1 ok2 : Nat → Bool} (labs : List Laboratory)
    (requests : List LabRequest) (n : Int) {s1 s2 : Scheduler} (h : InStep ok1 ok2 s1 s2) :
    (scheduleLoop ok1 labs requests s1 n).1 = (scheduleLoop ok2 labs requests s2 n).1 ∧
    InStep ok1 ok2 (scheduleLoop ok1 labs requests s1 n).2
      (scheduleLoop ok2 labs requests s2 n).2 := by
  induction requests generalizing s1 s2 n with
  | nil => exact ⟨rfl, h⟩
  | cons r rest ih =>
    have ha := allocateRequest_inStep r labs h
    rcases e1 : allocateRequest ok1 r labs s1 with ⟨b1, t1⟩
    rcases e2 : allocateRequest ok2 r labs s2 with ⟨b2, t2⟩
    rw [e1, e2] at ha
    obtain ⟨hb, hs⟩ := ha
    simp only at hb hs
    subst hb
    cases b1 <;> simp only [scheduleLoop, e1, e2] <;> exact ih _ hs

/-- Two runs over the same rooms list and the same requests list whose writes
have the same outcomes return the same count, commit the same
`(requestId, labId, timeSlot)` rows and leave the same occupancy index, whatever
occupancy index, stored rows and row ids the two schedulers held before and
whatever the outcomes of the two `DELETE`s. -/
theorem run_determined_by_data (d1 d2 : Bool) (ok1 ok2 : Nat → Bool) (s1 s2 : Scheduler)
    (hl : s1.database.laboratories = s2.database.laboratories)
    (hr : s1.database.requests = s2.database.requests)
    (hok : ∀ n, ok1 (s1.database.writes + n) = ok2 (s2.database.writes + n)) :
    (generateSchedule d1 ok1 s1).1 = (generateSchedule d2 ok2 s2).1 ∧
    (committedRows d1 ok1 s1).map Schedule.triple =
      (committedRows d2 ok2 s2).map Schedule.triple ∧
    (generateSchedule d1 ok1 s1).2.labOccupancy =
      (generateSchedule d2 ok2 s2).2.labOccupancy := by
  rw [generateSchedule_fst d1, generateSchedule_fst d2, committedRows_eq d1,
    committedRows_eq d2, generateSchedule_occupancy d1, generateSchedule_occupancy d2,
    generateSchedule_eq_loop, generateSchedule_eq_loop, hl, hr]
  have h0 : InStep ok1 ok2 (startState true s1) (startState true s2) := ⟨rfl, rfl, hok⟩
  obtain ⟨hc, hs⟩ := scheduleLoop_inStep s2.database.laboratories s2.database.requests 0 h0
  exact ⟨hc, hs.triples, hs.occupancy⟩

/-- When both `DELETE`s succeed, two runs over the same rooms and requests with
the same write outcomes leave the same `(requestId, labId, timeSlot)` rows in
the table, and a second run on the state left by a first run (every write
succeeding) repeats the first. -/
theorem run_isolated_when_deleted :
    (∀ (ok1 ok2 : Nat → Bool) (s1 s2 : Scheduler),
      s1.database.laboratories = s2.database.laboratories →
      s1.database.requests = s2.database.requests →
      (∀ n, ok1 (s1.database.writes + n) = ok2 (s2.database.writes + n)) →
      (generateSchedule true ok1 s1).1 = (generateSchedule true ok2 s2).1 ∧
      (generateSchedule true ok1 s1).2.database.schedules.map Schedule.triple =
        (generateSchedule true ok2 s2).2.database.schedules.map Schedule.triple) ∧
    (∀ s : Scheduler,
      (generateSchedule true allOk (generateSchedule true allOk s).2).1 =
        (generateSchedule true allOk s).1 ∧
      (generateSchedule true allOk (generateSchedule true allOk s).2).2.database.schedules.map
          Schedule.triple =
        (generateSchedule true allOk s).2.database.schedules.map Schedule.triple) := by
  have key : ∀ (ok1 ok2 : Nat → Bool) (s1 s2 : Scheduler),
      s1.database.laboratories = s2.database.laboratories →
      s1.database.requests = s2.database.requests →
      (∀ n, ok1 (s1.database.writes + n) = ok2 (s2.database.writes + n)) →
      (generateSchedule true ok1 s1).1 = (generateSchedule true ok2 s2).1 ∧
      (generateSchedule true ok1 s1).2.database.schedules.map Schedule.triple =
        (generateSchedule true ok2 s2).2.database.schedules.map Schedule.triple := by
    intro ok1 ok2 s1 s2 hl hr hok
    obtain ⟨h1, h2, _⟩ := run_determined_by_data true true ok1 ok2 s1 s2 hl hr hok
    rw [committedRows_deleted, committedRows_deleted] at h2
    exact ⟨h1, h2⟩
  refine ⟨key, fun s => ?_⟩
  obtain ⟨_, _, _, _, hl, hr⟩ := generateSchedule_spec true allOk s
  exact key allOk allOk _ s hl hr fun _ => rfl

/-- C6 — determinism and run isolation fail when the `DELETE` of step 1 fails.
`staleTestScheduler` and `testScheduler` have the same rooms and the same
requests; with the `DELETE` failing and every `INSERT` succeeding, the table
after the run on `staleTestScheduler` is the earlier row (request 4, room 1,
slot (9,0,0)) followed by the four rows of the run, whereas a run from the
empty table leaves those four rows only: the assignments present after
`generateSchedule` depend on the rows left by the earlier run, and room 1 is
booked twice at (9,0,0) in the table. -/
theorem C6_failed_delete_keeps_earlier_rows :
    staleTestScheduler.database.laboratories = testScheduler.database.laboratories ∧
    staleTestScheduler.database.requests = testScheduler.database.requests ∧
    (generateSchedule false allOk testScheduler).2.database.schedules.map Schedule.triple =
      [(1, 1, ⟨9, 0, 0⟩), (2, 2, ⟨9, 0, 0⟩), (3, 1, ⟨9, 1, 0⟩), (4, 2, ⟨9, 1, 0⟩)] ∧
    (generateSchedule false allOk staleTestScheduler).2.database.schedules.map Schedule.triple =
      [(4, 1, ⟨9, 0, 0⟩),
       (1, 1, ⟨9, 0, 0⟩), (2, 2, ⟨9, 0, 0⟩), (3, 1, ⟨9, 1, 0⟩), (4, 2, ⟨9, 1, 0⟩)] ∧
    (4, 1, (⟨9, 0, 0⟩ : TimeSlot)) ∈
      (generateSchedule false allOk staleTestScheduler).2.database.schedules.map
        Schedule.triple ∧
    (4, 1, (⟨9, 0, 0⟩ : TimeSlot)) ∉
      (generateSchedule false allOk testScheduler).2.database.schedules.map Schedule.triple := by
  decide

/-- C7 — the returned integer is the count of satisfied requests: it equals the
number of `true` results among the `allocateRequest` calls on the requests in
order from the state left by step 1, and it equals the number of rows committed
by the run, whatever the outcome of the `DELETE` and of the writes. -/
theorem C7_returns_satisfied_count (deleted : Bool) (ok : Nat → Bool) (s : Scheduler) :
    (generateSchedule deleted ok s).1 =
      ((allocResults ok s.database.laboratories s.database.requests
        (startState deleted s)).count true : Int) ∧
    (generateSchedule deleted ok s).1 = ((committedRows deleted ok s).length : Int) := by
  constructor
  · rw [generateSchedule_eq_loop, scheduleLoop_count]; simp
  · obtain ⟨served, _, hf, hcnt, _, _⟩ := generateSchedule_spec deleted ok s
    rw [hcnt, hf.length_eq]

/-- C8 — soft abort on empty input: with no rooms, or with no requests,
`generateSchedule` returns 0, commits no row (the table is as step 1 left it:
empty when the `DELETE` succeeded) and issues no `addSchedule` call; the
function is total, so no error is raised. -/
theorem C8_soft_abort_on_empty_input (deleted : Bool) (ok : Nat → Bool) (s : Scheduler)
    (h : s.database.laboratories = [] ∨ s.database.requests = []) :
    (generateSchedule deleted ok s).1 = 0 ∧
    committedRows deleted ok s = [] ∧
    (generateSchedule deleted ok s).2.database.schedules = survivors deleted s ∧
    (generateSchedule true ok s).2.database.schedules = [] ∧
    (generateSchedule deleted ok s).2.database.writes = s.database.writes := by
  have hrun : ∀ d : Bool, generateSchedule d ok s = (0, startState d s) := by
    intro d
    unfold generateSchedule startState
    rcases h with h | h
    · simp [h, clearSchedules_laboratories]
    · by_cases hl : s.database.laboratories = []
      · simp [hl, clearSchedules_laboratories]
      · simp [h, clearSchedules_requests]
  have hs : (startState deleted s).database.schedules = survivors deleted s := rfl
  refine ⟨by rw [hrun], ?_, by rw [hrun, hs], by rw [hrun]; rfl, ?_⟩
  · unfold committedRows
    rw [hrun, hs, List.drop_length]
  · rw [hrun]
    exact clearSchedules_writes deleted s.database

/-- Witness of C8: a scheduler with no rooms. -/
theorem C8_soft_abort_on_empty_input_witness :
    (generateSchedule true allOk staleScheduler).1 = 0 ∧
    committedRows true allOk staleScheduler = [] ∧
    (generateSchedule true allOk staleScheduler).2.database.schedules =
      survivors true staleScheduler ∧
    (generateSchedule true allOk staleScheduler).2.database.schedules = [] ∧
    (generateSchedule true allOk staleScheduler).2.database.writes =
      staleScheduler.database.writes :=
  C8_soft_abort_on_empty_input true allOk staleScheduler (Or.inl rfl)

/-- C9, as stated, fails: with no rooms and an occupancy mark left by an
earlier run, the occupancy index after `generateSchedule` differs from the one
before the call (it has been cleared), whether the `DELETE` succeeds or not. -/
theorem C9_counterexample :
    staleScheduler.database.laboratories = [] ∧
    (generateSchedule true allOk staleScheduler).2.labOccupancy ≠
      staleScheduler.labOccupancy ∧
    (generateSchedule false allOk staleScheduler).2.labOccupancy ≠
      staleScheduler.labOccupancy := by
  decide

/-- C9, amended — with no rooms `generateSchedule` returns 0 after having reset
the occupancy state: the occupancy index after the call is empty, so it equals
the prior index exactly when that one was empty. -/
theorem C9_empty_rooms_reset_occupancy (deleted : Bool) (ok : Nat → Bool) (s : Scheduler)
    (h : s.database.laboratories = []) :
    (generateSchedule deleted ok s).1 = 0 ∧
    (generateSchedule deleted ok s).2.labOccupancy = [] ∧
    ((generateSchedule deleted ok s).2.labOccupancy = s.labOccupancy ↔
      s.labOccupancy = []) := by
  unfold generateSchedule
  simp only [h, clearSchedules_laboratories, List.isEmpty_nil, if_true, true_and]
  exact ⟨fun e => e.symm, fun e => e.symm⟩

/-- Witness of the amended C9 on the scheduler with no rooms. -/
theorem C9_empty_rooms_reset_occupancy_witness :
    (generateSchedule true allOk staleScheduler).1 = 0 ∧
    (generateSchedule true allOk staleScheduler).2.labOccupancy = [] ∧
    ((generateSchedule true allOk staleScheduler).2.labOccupancy =
        staleScheduler.labOccupancy ↔
      staleScheduler.labOccupancy = []) :=
  C9_empty_rooms_reset_occupancy true allOk staleScheduler rfl

/-! ## The slot universe -/

theorem getAllPossibleSlots_eq :
    getAllPossibleSlots =
      [⟨9, 0, 0⟩, ⟨9, 0, 1⟩, ⟨9, 1, 0⟩, ⟨9, 1, 1⟩, ⟨9, 2, 0⟩, ⟨9, 2, 1⟩, ⟨9, 3, 0⟩, ⟨9, 3, 1⟩,
       ⟨9, 4, 0⟩, ⟨9, 4, 1⟩, ⟨10, 0, 0⟩, ⟨10, 0, 1⟩, ⟨10, 1, 0⟩, ⟨10, 1, 1⟩, ⟨10, 2, 0⟩,
       ⟨10, 2, 1⟩, ⟨10, 3, 0⟩, ⟨10, 3, 1⟩, ⟨10, 4, 0⟩, ⟨10, 4, 1⟩] := by
  decide

theorem mem_intRange (lo hi x : Int) : x ∈ intRange lo hi ↔ lo ≤ x ∧ x < hi := by
  simp only [intRange, List.mem_map, List.mem_range, Int.ofNat_eq_coe]
  constructor
  · rintro ⟨i, hi1, rfl⟩
    omega
  · intro h
    exact ⟨(x - lo).toNat, by omega, by omega⟩

theorem mem_getAllPossibleSlots (t : TimeSlot) :
    t ∈ getAllPossibleSlots ↔
      9 ≤ t.week ∧ t.week ≤ 10 ∧ 0 ≤ t.day ∧ t.day < 5 ∧ 0 ≤ t.period ∧ t.period < 2 := by
  simp only [getAllPossibleSlots, List.mem_flatMap, List.mem_map, mem_intRange]
  constructor
  · rintro ⟨w, hw, d, hd, p, hp, rfl⟩
    simp only
    omega
  · intro h
    exact ⟨t.week, by omega, t.day, by omega, t.period, by omega, rfl⟩

/-- C10 — `getAllPossibleSlots` is the Cartesian product of weeks {9, 10}, days
{0..4} and periods {0, 1}: 20 pairwise distinct slots, strictly ascending under
`operator<` (week, then day, then period), the first being (9,0,0) and the last
(10,4,1), and a slot belongs to the list iff `9 <= week <= 10`, `0 <= day < 5`
and `0 <= period < 2`. -/
theorem C10_allSlots_cartesian_product :
    getAllPossibleSlots.length = 20 ∧
    getAllPossibleSlots.Nodup ∧
    getAllPossibleSlots.Pairwise (fun a b => a.lt b = true) ∧
    getAllPossibleSlots.head? = some ⟨9, 0, 0⟩ ∧
    getAllPossibleSlots.getLast? = some ⟨10, 4, 1⟩ ∧
    (∀ t : TimeSlot, t ∈ getAllPossibleSlots ↔
      9 ≤ t.week ∧ t.week ≤ 10 ∧ 0 ≤ t.day ∧ t.day < 5 ∧ 0 ≤ t.period ∧ t.period < 2) ∧
    getAllPossibleSlots =
      ([9, 10] : List Int).flatMap fun w =>
        ([0, 1, 2, 3, 4] : List Int).flatMap fun d =>
          ([0, 1] : List Int).map fun p => ({ week := w, day := d, period := p } : TimeSlot) :=
  ⟨by decide, by decide, by decide, by decide, by decide, mem_getAllPossibleSlots, by decide⟩

/-! ## The order on time slots -/

theorem TimeSlot.lt_iff (a b : TimeSlot) :
    a.lt b = true ↔
      a.week < b.week ∨ (a.week = b.week ∧
        (a.day < b.day ∨ (a.day = b.day ∧ a.period < b.period))) := by
  unfold TimeSlot.lt
  split_ifs with h1 h2 <;> simp only [decide_eq_true_eq] <;> omega

theorem TimeSlot.lt_irrefl (a : TimeSlot) : a.lt a = false := by
  cases h : a.lt a with
  | false => rfl
  | true => rw [TimeSlot.lt_iff] at h; omega

theorem TimeSlot.lt_asymm {a b : TimeSlot} (h : a.lt b = true) : b.lt a = false := by
  cases h1 : b.lt a with
  | false => rfl
  | true => rw [TimeSlot.lt_iff] at h h1; omega

theorem TimeSlot.lt_trans {a b c : TimeSlot} (h1 : a.lt b = true) (h2 : b.lt c = true) :
    a.lt c = true := by
  rw [TimeSlot.lt_iff] at h1 h2 ⊢
  omega

/-- C11 — the order on time slots: `operator<` is the lexicographic order on
(week, day, period) and `operator==` is structural equality; `operator<` is
irreflexive and transitive, and for any two slots exactly one of `a < b`,
`a == b`, `b < a` holds. -/
theorem C11_timeslot_strict_total_order :
    (∀ a b : TimeSlot, a.lt b = true ↔
      a.week < b.week ∨ (a.week = b.week ∧
        (a.day < b.day ∨ (a.day = b.day ∧ a.period < b.period)))) ∧
    (∀ a b : TimeSlot, a.eq b = true ↔ a = b) ∧
    (∀ a : TimeSlot, a.lt a = false) ∧
    (∀ a b c : TimeSlot, a.lt b = true → b.lt c = true → a.lt c = true) ∧
    (∀ a b : TimeSlot,
      (a.lt b = true ∧ a.eq b = false ∧ b.lt a = false) ∨
      (a.lt b = false ∧ a.eq b = true ∧ b.lt a = false) ∨
      (a.lt b = false ∧ a.eq b = false ∧ b.lt a = true)) := by
  refine ⟨TimeSlot.lt_iff, TimeSlot.eq_iff, TimeSlot.lt_irrefl,
    fun a b c => TimeSlot.lt_trans, fun a b => ?_⟩
  by_cases hab : a.lt b = true
  · refine Or.inl ⟨hab, ?_, TimeSlot.lt_asymm hab⟩
    cases he : a.eq b with
    | false => rfl
    | true =>
      rw [(TimeSlot.eq_iff a b).1 he, TimeSlot.lt_irrefl] at hab
      exact Bool.noConfusion hab
  · have hab1 : a.lt b = false := by simpa using hab
    by_cases hba : b.lt a = true
    · refine Or.inr (Or.inr ⟨hab1, ?_, hba⟩)
      cases he : a.eq b with
      | false => rfl
      | true =>
        rw [(TimeSlot.eq_iff a b).1 he, TimeSlot.lt_irrefl] at hba
        exact Bool.noConfusion hba
    · have hba1 : b.lt a = false := by simpa using hba
      refine Or.inr (Or.inl ⟨hab1, ?_, hba1⟩)
      exact (TimeSlot.eq_iff a b).2 ((TimeSlot.equiv_iff a b).1 (by simp [hab1, hba1]))

/-- Witness of C11: transitivity on (9,0,0) < (9,0,1) < (10,0,0). -/
theorem C11_timeslot_strict_total_order_witness :
    TimeSlot.lt ⟨9, 0, 0⟩ ⟨10, 0, 0⟩ = true :=
  C11_timeslot_strict_total_order.2.2.2.1 ⟨9, 0, 0⟩ ⟨9, 0, 1⟩ ⟨10, 0, 0⟩ (by decide) (by decide)

/-! ## The occupancy index on arbitrary inputs -/

theorem Occupancy.find_eq_none_iff (occ : Occupancy) (labId : Int) :
    occ.find labId = none ↔ labId ∉ occ.map Prod.fst := by
  induction occ with
  | nil => simp [Occupancy.find]
  | cons e rest ih =>
    obtain ⟨k, v⟩ := e
    by_cases h : k = labId
    · simp [Occupancy.find, h]
    · have h1 : ¬ labId = k := fun e => h e.symm
      simp [Occupancy.find, h, h1, ih]

/-- C12 — `isLabAvailable`: for every occupancy index, lab id and slot the
result is `true` iff the lab id has no entry in the index or the slot is absent
from the set stored for that lab; on the empty index it is `true` for every lab
id and slot. -/
theorem C12_isLabAvailable_iff :
    (∀ (occ : Occupancy) (labId : Int) (slot : TimeSlot),
      isLabAvailable occ labId slot = true ↔
        (labId ∉ occ.map Prod.fst ∨ ∃ set, occ.find labId = some set ∧ slot ∉ set)) ∧
    (∀ (labId : Int) (slot : TimeSlot), isLabAvailable [] labId slot = true) := by
  refine ⟨fun occ labId slot => ?_, fun labId slot => rfl⟩
  rw [← Occupancy.find_eq_none_iff]
  unfold isLabAvailable
  cases hf : Occupancy.find occ labId with
  | none => simp
  | some set =>
    have hc := slotSetContains_iff set slot
    cases hb : slotSetContains set slot with
    | true => simp [hc.1 hb, hb]
    | false =>
      have : slot ∉ set := fun hm => by rw [hc.2 hm] at hb; exact Bool.noConfusion hb
      simp [this, hb]

theorem slotSetInsert_idem (set : List TimeSlot) (slot : TimeSlot) :
    slotSetInsert (slotSetInsert set slot) slot = slotSetInsert set slot := by
  induction set with
  | nil => simp [slotSetInsert, TimeSlot.lt_irrefl]
  | cons y ys ih =>
    by_cases h1 : slot.lt y = true
    · simp [slotSetInsert, h1, TimeSlot.lt_irrefl]
    · by_cases h2 : y.lt slot = true
      · simp [slotSetInsert, h1, h2, ih]
      · simp [slotSetInsert, h1, h2]

theorem Occupancy.insertSlot_idem (occ : Occupancy) (labId : Int) (slot : TimeSlot) :
    (occ.insertSlot labId slot).insertSlot labId slot = occ.insertSlot labId slot := by
  induction occ with
  | nil => simp [Occupancy.insertSlot, slotSetInsert_idem]
  | cons e rest ih =>
    obtain ⟨k, v⟩ := e
    by_cases h1 : labId < k
    · simp [Occupancy.insertSlot, h1, slotSetInsert_idem]
    · by_cases h2 : k < labId
      · simp [Occupancy.insertSlot, h1, h2, ih]
      · simp [Occupancy.insertSlot, h1, h2, slotSetInsert_idem]

theorem Occupancy.find_insertSlot_self (occ : Occupancy) (labId : Int) (slot : TimeSlot) :
    ∃ set, (occ.insertSlot labId slot).find labId = some set ∧ slot ∈ set := by
  induction occ with
  | nil => exact ⟨[slot], by simp [Occupancy.insertSlot, Occupancy.find, slotSetInsert], by simp⟩
  | cons e rest ih =>
    obtain ⟨k, v⟩ := e
    by_cases h1 : labId < k
    · exact ⟨[slot], by simp [Occupancy.insertSlot, Occupancy.find, h1, slotSetInsert], by simp⟩
    · by_cases h2 : k < labId
      · obtain ⟨set, hf, hm⟩ := ih
        have hne : ¬ k = labId := by omega
        exact ⟨set, by simp [Occupancy.insertSlot, Occupancy.find, h1, h2, hne, hf], hm⟩
      · have hk : k = labId := by omega
        exact ⟨slotSetInsert v slot,
          by simp [Occupancy.insertSlot, Occupancy.find, h1, h2, hk],
          (mem_slotSetInsert v slot slot).2 (Or.inl rfl)⟩

/-- C13 — `markLabOccupied` is idempotent: for every occupancy index, lab id and
slot, marking the pair twice gives the same index as marking it once, and after
marking, `isLabAvailable` is `false` for the pair. -/
theorem C13_markLabOccupied_idempotent (occ : Occupancy) (labId : Int) (slot : TimeSlot) :
    markLabOccupied (markLabOccupied occ labId slot) labId slot =
      markLabOccupied occ labId slot ∧
    isLabAvailable (markLabOccupied occ labId slot) labId slot = false := by
  refine ⟨Occupancy.insertSlot_idem occ labId slot, ?_⟩
  obtain ⟨set, hf, hm⟩ := Occupancy.find_insertSlot_self occ labId slot
  simp [isLabAvailable, markLabOccupied, hf, (slotSetContains_iff set slot).2 hm]

/-! ## Statistics -/

theorem mem_idSetInsert (ids : List Int) (x y : Int) :
    y ∈ idSetInsert ids x ↔ y = x ∨ y ∈ ids := by
  induction ids with
  | nil => simp [idSetInsert]
  | cons z zs ih =>
    unfold idSetInsert
    by_cases h1 : x < z
    · simp [h1]
    · by_cases h2 : z < x
      · simp only [h1, h2, if_true, if_false, List.mem_cons, ih]
        tauto
      · have hz : x = z := by omega
        subst hz
        simp [h1]

theorem idSetInsert_sorted (ids : List Int) (x : Int) (h : ids.Pairwise (· < ·)) :
    (idSetInsert ids x).Pairwise (· < ·) := by
  induction ids with
  | nil => simp [idSetInsert]
  | cons z zs ih =>
    have hz : ∀ y ∈ zs, z < y := (List.pairwise_cons.1 h).1
    have hzs : zs.Pairwise (· < ·) := (List.pairwise_cons.1 h).2
    unfold idSetInsert
    by_cases h1 : x < z
    · simp only [h1, if_true]
      refine List.pairwise_cons.2 ⟨?_, h⟩
      intro y hy
      rcases List.mem_cons.1 hy with rfl | hy1
      · exact h1
      · exact lt_trans h1 (hz y hy1)
    · by_cases h2 : z < x
      · simp only [h1, h2, if_true, if_false]
        refine List.pairwise_cons.2 ⟨?_, ih hzs⟩
        intro y hy
        rcases (mem_idSetInsert zs x y).1 hy with rfl | hy1
        · exact h2
        · exact hz y hy1
      · simp only [h1, h2, if_false]
        exact h

theorem idSetContains_iff (ids : List Int) (x : Int) : idSetContains ids x = true ↔ x ∈ ids := by
  simp only [idSetContains, List.any_eq_true, Bool.and_eq_true, Bool.not_eq_true',
    decide_eq_false_iff_not]
  constructor
  · rintro ⟨y, hy, h1, h2⟩
    have : x = y := by omega
    rw [this]; exact hy
  · intro h
    exact ⟨x, h, lt_irrefl x, lt_irrefl x⟩

theorem foldl_idSetInsert (rows : List Schedule) (acc : List Int)
    (hacc : acc.Pairwise (· < ·)) :
    (rows.foldl (fun ids schedule => idSetInsert ids schedule.requestId) acc).Pairwise (· < ·) ∧
    ∀ y, y ∈ rows.foldl (fun ids schedule => idSetInsert ids schedule.requestId) acc ↔
      y ∈ acc ∨ y ∈ rows.map Schedule.requestId := by
  induction rows generalizing acc with
  | nil => simp [hacc]
  | cons r rest ih =>
    obtain ⟨h1, h2⟩ := ih (idSetInsert acc r.requestId) (idSetInsert_sorted acc _ hacc)
    refine ⟨h1, fun y => ?_⟩
    simp only [List.foldl_cons, h2, mem_idSetInsert, List.map_cons, List.mem_cons]
    tauto

theorem scheduledRequestIds_spec (rows : List Schedule) :
    (scheduledRequestIds rows).Pairwise (· < ·) ∧
    ∀ y, y ∈ scheduledRequestIds rows ↔ y ∈ rows.map Schedule.requestId := by
  obtain ⟨h1, h2⟩ := foldl_idSetInsert rows [] List.Pairwise.nil
  exact ⟨h1, fun y => by simpa [scheduledRequestIds] using h2 y⟩

theorem scheduledRequestIds_length (rows : List Schedule) :
    (scheduledRequestIds rows).length = (rows.map Schedule.requestId).toFinset.card := by
  obtain ⟨h1, h2⟩ := scheduledRequestIds_spec rows
  have hnd : (scheduledRequestIds rows).Nodup := h1.imp fun h => ne_of_lt h
  rw [← List.toFinset_card_of_nodup hnd]
  congr 1
  ext y
  simp only [List.mem_toFinset, h2]

theorem failedClassesLoop_eq (ids : List Int) (requests : List LabRequest) :
    failedClassesLoop ids requests =
      (requests.filter fun request => !idSetContains ids request.id).map
        fun request => request.classId ++ " (" ++ request.teacher ++ ")" := by
  have key : ∀ (l : List LabRequest) (acc : List String),
      l.foldl
        (fun failed request =>
          if !idSetContains ids request.id then
            failed ++ [request.classId ++ " (" ++ request.teacher ++ ")"]
          else failed) acc =
      acc ++ (l.filter fun request => !idSetContains ids request.id).map
        fun request => request.classId ++ " (" ++ request.teacher ++ ")" := by
    intro l
    induction l with
    | nil => intro acc; simp
    | cons r rest ih =>
      intro acc
      rw [List.foldl_cons, ih]
      cases hc : idSetContains ids r.id <;> simp [List.filter_cons, hc]
  simpa [failedClassesLoop] using key requests []

/-- C14 — statistics, successful count: for every list of requests and every
list of stored rows, `totalRequests` is the number of requests and
`successfulRequests` is the number of distinct `requestId` values occurring in
the rows (a `requestId` occurring several times is counted once). -/
theorem C14_stats_successful_count (s : Scheduler) :
    (getScheduleStats s).totalRequests = (s.database.requests.length : Int) ∧
    (getScheduleStats s).successfulRequests =
      ((s.database.schedules.map Schedule.requestId).toFinset.card : Int) ∧
    (getScheduleStats s).successfulRequests =
      ((s.database.schedules.map Schedule.requestId).dedup.length : Int) := by
  have h := scheduledRequestIds_length s.database.schedules
  refine ⟨rfl, ?_, ?_⟩
  · simp only [getScheduleStats, h]
  · simp only [getScheduleStats, h, List.card_toFinset]

/-- C15 — statistics, success rate over exact rationals: when `totalRequests > 0`
the rate is `successfulRequests / totalRequests * 100`, when `totalRequests = 0`
it is 0; for three requests of which exactly two have rows it is 200/3, which
is 66.67 to two decimals. -/
theorem C15_stats_success_rate :
    (∀ s : Scheduler, 0 < (getScheduleStats s).totalRequests →
      (getScheduleStats s).successRate =
        ((getScheduleStats s).successfulRequests : ℚ) /
          ((getScheduleStats s).totalRequests : ℚ) * 100) ∧
    (∀ s : Scheduler, (getScheduleStats s).totalRequests = 0 →
      (getScheduleStats s).successRate = 0) ∧
    ((getScheduleStats statsScheduler).totalRequests = 3 ∧
      (getScheduleStats statsScheduler).successfulRequests = 2 ∧
      (getScheduleStats statsScheduler).successRate = 200 / 3 ∧
      (66.665 : ℚ) ≤ (getScheduleStats statsScheduler).successRate ∧
      (getScheduleStats statsScheduler).successRate < (66.675 : ℚ)) := by
  have hrate : ∀ s : Scheduler, (getScheduleStats s).successRate =
      if (getScheduleStats s).totalRequests > 0 then
        ((getScheduleStats s).successfulRequests : ℚ) * 100 /
          ((getScheduleStats s).totalRequests : ℚ)
      else 0 := fun s => rfl
  have h3 : (getScheduleStats statsScheduler).totalRequests = 3 := by decide
  have h2 : (getScheduleStats statsScheduler).successfulRequests = 2 := by decide
  have hr : (getScheduleStats statsScheduler).successRate = 200 / 3 := by
    rw [hrate, h3, h2]; norm_num
  refine ⟨fun s hpos => ?_, fun s hzero => ?_, h3, h2, hr, ?_, ?_⟩
  · rw [hrate, if_pos hpos]; ring
  · rw [hrate, hzero]; simp
  · rw [hr]; norm_num
  · rw [hr]; norm_num

/-- Witness of C15 on three requests of which two have rows. -/
theorem C15_stats_success_rate_witness :
    (getScheduleStats statsScheduler).successRate =
      ((getScheduleStats statsScheduler).successfulRequests : ℚ) /
        ((getScheduleStats statsScheduler).totalRequests : ℚ) * 100 :=
  C15_stats_success_rate.1 statsScheduler (by decide)

/-- C16 — statistics, failed descriptions: for every list of requests and every
list of stored rows, `failedClasses` is the requests list filtered, order
preserved, to the requests whose id occurs in no row, each mapped to
`classId ++ " (" ++ teacher ++ ")"`; for three requests of which exactly two
have rows it holds exactly the unmatched request's string. -/
theorem C16_stats_failed_descriptions :
    (∀ s : Scheduler, (getScheduleStats s).failedClasses =
      (s.database.requests.filter fun request =>
          decide (request.id ∉ s.database.schedules.map Schedule.requestId)).map
        fun request => request.classId ++ " (" ++ request.teacher ++ ")") ∧
    (getScheduleStats statsScheduler).failedClasses = ["B210309 (Dai Hua)"] := by
  constructor
  · intro s
    have hf : (getScheduleStats s).failedClasses =
        failedClassesLoop (scheduledRequestIds s.database.schedules) s.database.requests := rfl
    rw [hf, failedClassesLoop_eq]
    congr 1
    apply List.filter_congr
    intro request _
    have h2 := (scheduledRequestIds_spec s.database.schedules).2 request.id
    have h3 := idSetContains_iff (scheduledRequestIds s.database.schedules) request.id
    by_cases hm : request.id ∈ s.database.schedules.map Schedule.requestId
    · simp [hm, h3.2 (h2.2 hm)]
    · have : idSetContains (scheduledRequestIds s.database.schedules) request.id = false := by
        cases hc : idSetContains (scheduledRequestIds s.database.schedules) request.id with
        | false => rfl
        | true => exact absurd (h2.1 (h3.1 hc)) hm
      simp [hm, this]
  · decide

/-! ## The two phases when every write succeeds -/

theorem any_roomFits_of_find {occ : Occupancy} {request : LabRequest} {slot : TimeSlot}
    {labs : List Laboratory} {lab : Laboratory}
    (h : labs.find? (roomFits occ request slot) = some lab) :
    labs.any (roomFits occ request slot) = true :=
  List.any_eq_true.2 ⟨lab, List.mem_of_find?_eq_some h, List.find?_some h⟩

theorem any_roomFits_of_find_none {occ : Occupancy} {request : LabRequest} {slot : TimeSlot}
    {labs : List Laboratory} (h : labs.find? (roomFits occ request slot) = none) :
    labs.any (roomFits occ request slot) = false := by
  cases ha : labs.any (roomFits occ request slot) with
  | false => rfl
  | true =>
    obtain ⟨lab, hm, hf⟩ := List.any_eq_true.1 ha
    exact absurd hf (List.find?_eq_none.1 h lab hm)

theorem phase1_allOk (request : LabRequest) (labs : List Laboratory) (slots : List TimeSlot)
    (s : Scheduler) :
    phase1 allOk request labs slots s =
      match slots.find? (eligible1 s.labOccupancy request labs) with
      | none => (false, s)
      | some slot =>
        match labs.find? (roomFits s.labOccupancy request slot) with
        | some lab => (true, commitState s request lab slot)
        | none => (false, s) := by
  induction slots with
  | nil => rfl
  | cons p rest ih =>
    unfold phase1
    by_cases hex : isSlotExcluded p request.excludedSlots = true
    · have he : eligible1 s.labOccupancy request labs p = false := by simp [eligible1, hex]
      simp only [hex, if_true, List.find?_cons, he, ih]
    · have hex1 : isSlotExcluded p request.excludedSlots = false := by simpa using hex
      simp only [hex1, Bool.false_eq_true, if_false, scanLabs_allOk]
      cases hfind : labs.find? (roomFits s.labOccupancy request p) with
      | none =>
        have he : eligible1 s.labOccupancy request labs p = false := by
          simp [eligible1, any_roomFits_of_find_none hfind]
        simp only [List.find?_cons, he, ih]
      | some lab =>
        have he : eligible1 s.labOccupancy request labs p = true := by
          simp [eligible1, hex1, any_roomFits_of_find hfind]
        simp only [List.find?_cons, he, hfind]

theorem phase2_allOk (request : LabRequest) (labs : List Laboratory) (slots : List TimeSlot)
    (s : Scheduler) :
    phase2 allOk request labs slots s =
      match slots.find? (eligible2 s.labOccupancy request labs) with
      | none => (false, s)
      | some slot =>
        match labs.find? (roomFits s.labOccupancy request slot) with
        | some lab => (true, commitState s request lab slot)
        | none => (false, s) := by
  induction slots with
  | nil => rfl
  | cons p rest ih =>
    unfold phase2
    by_cases hex : isSlotExcluded p request.excludedSlots = true
    · have he : eligible2 s.labOccupancy request labs p = false := by simp [eligible2, hex]
      simp only [hex, if_true, List.find?_cons, he, ih]
    · have hex1 : isSlotExcluded p request.excludedSlots = false := by simpa using hex
      by_cases hpref : request.preferredSlots.any (fun q => q.eq p) = true
      · have he : eligible2 s.labOccupancy request labs p = false := by
          simp only [eligible2, hex1, hpref]; rfl
        simp only [hex1, hpref, Bool.false_eq_true, if_false, if_true, List.find?_cons, he, ih]
      · have hpref1 : request.preferredSlots.any (fun q => q.eq p) = false := by
          simpa using hpref
        simp only [hex1, hpref1, Bool.false_eq_true, if_false, scanLabs_allOk]
        cases hfind : labs.find? (roomFits s.labOccupancy request p) with
        | none =>
          have he : eligible2 s.labOccupancy request labs p = false := by
            simp only [eligible2, any_roomFits_of_find_none hfind, Bool.and_false]
          simp only [List.find?_cons, he, ih]
        | some lab =>
          have he : eligible2 s.labOccupancy request labs p = true := by
            simp only [eligible2, hex1, hpref1, any_roomFits_of_find hfind]; rfl
          simp only [List.find?_cons, he, hfind]

theorem eligible2_iff (occ : Occupancy) (request : LabRequest) (labs : List Laboratory)
    (t : TimeSlot) :
    eligible2 occ request labs t = true ↔
      t ∉ request.excludedSlots ∧ t ∉ request.preferredSlots ∧
      ∃ l ∈ labs, request.studentCount ≤ l.capacity ∧ isLabAvailable occ l.id t = true := by
  simp only [eligible2, Bool.and_eq_true, Bool.not_eq_true', List.any_eq_true, roomFits,
    decide_eq_true_eq]
  have h1 : isSlotExcluded t request.excludedSlots = false ↔ t ∉ request.excludedSlots := by
    rw [← isSlotExcluded_iff]; simp
  have h2 : (request.preferredSlots.any fun p => p.eq t) = false ↔
      t ∉ request.preferredSlots := by
    rw [← preferred_any_iff]; simp
  rw [h1, h2, and_assoc]

theorem find_first_in_order {p : TimeSlot → Bool} {slots : List TimeSlot} {slot : TimeSlot}
    (hs : slots.Pairwise fun a b => a.lt b = true) (hf : slots.find? p = some slot) :
    slot ∈ slots ∧ p slot = true ∧ ∀ t ∈ slots, t.lt slot = true → p t = false := by
  obtain ⟨hp, front, back, hsplit, hfront⟩ := List.find?_eq_some.1 hf
  refine ⟨List.mem_of_find?_eq_some hf, hp, ?_⟩
  intro t ht hlt
  rw [hsplit] at ht hs
  rcases List.mem_append.1 ht with h1 | h1
  · simpa using hfront t h1
  · rcases List.mem_cons.1 h1 with rfl | h2
    · rw [TimeSlot.lt_irrefl] at hlt
      exact Bool.noConfusion hlt
    · have hsl : slot.lt t = true :=
        (List.pairwise_cons.1 (List.pairwise_append.1 hs).2.1).1 t h2
      rw [TimeSlot.lt_asymm hsl] at hlt
      exact Bool.noConfusion hlt

theorem getAllPossibleSlots_sorted :
    getAllPossibleSlots.Pairwise fun a b => a.lt b = true := by
  decide

/-- C17 — phase-2 fallback picks the canonically earliest free slot.  With every
write succeeding, if phase 1 commits nothing and `allocateRequest` succeeds,
the committed slot is a slot of `getAllPossibleSlots` that is not excluded, not
preferred and has a fitting free room, no slot earlier in the canonical order
has these properties, and the row is committed in the first fitting room.
Scenario: one room of capacity 40 and two requests of 33 students both
preferring only (9,0,0): the first is assigned (9,0,0), the second (9,0,1). -/
theorem C17_phase2_earliest_free_slot :
    (∀ (request : LabRequest) (labs : List Laboratory) (s : Scheduler),
      (phase1 allOk request labs request.preferredSlots s).1 = false →
      (allocateRequest allOk request labs s).1 = true →
      ∃ slot lab,
        slot ∈ getAllPossibleSlots ∧
        slot ∉ request.excludedSlots ∧ slot ∉ request.preferredSlots ∧
        (∃ l ∈ labs, request.studentCount ≤ l.capacity ∧
          isLabAvailable s.labOccupancy l.id slot = true) ∧
        (∀ t ∈ getAllPossibleSlots, t.lt slot = true →
          ¬ (t ∉ request.excludedSlots ∧ t ∉ request.preferredSlots ∧
            ∃ l ∈ labs, request.studentCount ≤ l.capacity ∧
              isLabAvailable s.labOccupancy l.id t = true)) ∧
        getAllPossibleSlots.find? (eligible2 s.labOccupancy request labs) = some slot ∧
        labs.find? (roomFits s.labOccupancy request slot) = some lab ∧
        allocateRequest allOk request labs s = (true, commitState s request lab slot)) ∧
    (∀ deleted : Bool,
      (generateSchedule deleted allOk scenarioScheduler).1 = 2 ∧
      (generateSchedule deleted allOk scenarioScheduler).2.database.schedules.map
          Schedule.triple =
        [(1, 1, ⟨9, 0, 0⟩), (2, 1, ⟨9, 0, 1⟩)]) := by
  refine ⟨?_, fun deleted => by cases deleted <;> decide⟩
  intro request labs s h1 h2
  have hp1 : phase1 allOk request labs request.preferredSlots s = (false, s) := by
    rw [phase1_allOk] at h1 ⊢
    cases hf : request.preferredSlots.find? (eligible1 s.labOccupancy request labs) with
    | none => rfl
    | some slot =>
      simp only [hf] at h1
      cases hl : labs.find? (roomFits s.labOccupancy request slot) with
      | none => simp only [hl]
      | some lab => simp only [hl] at h1; exact Bool.noConfusion h1
  have hrun : allocateRequest allOk request labs s =
      phase2 allOk request labs getAllPossibleSlots s := by
    unfold allocateRequest
    rw [hp1]
  rw [hrun, phase2_allOk] at h2
  rw [hrun, phase2_allOk]
  cases hf : getAllPossibleSlots.find? (eligible2 s.labOccupancy request labs) with
  | none => simp only [hf] at h2; exact Bool.noConfusion h2
  | some slot =>
    simp only [hf] at h2
    cases hl : labs.find? (roomFits s.labOccupancy request slot) with
    | none => simp only [hl] at h2; exact Bool.noConfusion h2
    | some lab =>
      obtain ⟨hmem, hel, hfirst⟩ := find_first_in_order getAllPossibleSlots_sorted hf
      obtain ⟨hx, hq, hroom⟩ := (eligible2_iff _ _ _ _).1 hel
      refine ⟨slot, lab, hmem, hx, hq, hroom, ?_, rfl, hl, by simp only [hl]⟩
      intro t ht hlt hel2
      have := hfirst t ht hlt
      rw [(eligible2_iff _ _ _ _).2 hel2] at this
      exact Bool.noConfusion this

/-- Witness of C17: the second request of the scenario, processed after the
first one holds the room at (9,0,0), is committed at (9,0,1). -/
theorem C17_phase2_earliest_free_slot_witness :
    ∃ slot lab,
      getAllPossibleSlots.find? (eligible2 scenarioAfterFirst.labOccupancy scenarioRequest2
        [scenarioLab]) = some slot ∧
      slot = ⟨9, 0, 1⟩ ∧
      allocateRequest allOk scenarioRequest2 [scenarioLab] scenarioAfterFirst =
        (true, commitState scenarioAfterFirst scenarioRequest2 lab slot) := by
  obtain ⟨slot, lab, _, _, _, _, _, hf, _, hrun⟩ :=
    C17_phase2_earliest_free_slot.1 scenarioRequest2 [scenarioLab] scenarioAfterFirst
      (by decide) (by decide)
  have h9 : getAllPossibleSlots.find? (eligible2 scenarioAfterFirst.labOccupancy
      scenarioRequest2 [scenarioLab]) = some ⟨9, 0, 1⟩ := by decide
  exact ⟨slot, lab, hf, Option.some.inj (hf.symm.trans h9), hrun⟩

/-! ## Exclusion against preference -/

theorem scanLabs_congr (ok : Nat → Bool) (request request1 : LabRequest)
    (hid : request1.id = request.id) (hcount : request1.studentCount = request.studentCount)
    (slot : TimeSlot) (labs : List Laboratory) (s : Scheduler) :
    scanLabs ok request1 slot labs s = scanLabs ok request slot labs s := by
  induction labs generalizing s with
  | nil => rfl
  | cons lab rest ih =>
    unfold scanLabs
    simp only [hid, hcount, ih]

theorem phase1_all_excluded (ok : Nat → Bool) (request : LabRequest) (labs : List Laboratory)
    (slots : List TimeSlot) (s : Scheduler) (h : ∀ p ∈ slots, p ∈ request.excludedSlots) :
    phase1 ok request labs slots s = (false, s) := by
  induction slots with
  | nil => rfl
  | cons p rest ih =>
    unfold phase1
    have hex : isSlotExcluded p request.excludedSlots = true :=
      (isSlotExcluded_iff _ _).2 (h p (List.mem_cons_self _ _))
    simp only [hex, if_true]
    exact ih fun q hq => h q (List.mem_cons_of_mem _ hq)

theorem phase2_without_preferred (ok : Nat → Bool) (request : LabRequest)
    (labs : List Laboratory) (slots : List TimeSlot) (s : Scheduler)
    (h : ∀ p ∈ request.preferredSlots, p ∈ request.excludedSlots) :
    phase2 ok request labs slots s =
      phase2 ok { request with preferredSlots := [] } labs slots s := by
  induction slots generalizing s with
  | nil => rfl
  | cons p rest ih =>
    unfold phase2
    by_cases hex : isSlotExcluded p request.excludedSlots = true
    · simp only [hex, if_true]
      exact ih s
    · have hpref : request.preferredSlots.any (fun q => q.eq p) = false := by
        cases hc : request.preferredSlots.any (fun q => q.eq p) with
        | false => rfl
        | true =>
          exact absurd ((isSlotExcluded_iff _ _).2 (h p ((preferred_any_iff _ _).1 hc))) hex
      simp only [hex, hpref, List.any_nil, Bool.false_eq_true, if_false]
      rw [scanLabs_congr ok request { request with preferredSlots := [] } rfl rfl]
      cases scanLabs ok request p labs s with
      | mk b s1 =>
        cases b with
        | true => rfl
        | false => exact ih s1

/-- C18 — exclusion wins over preference: for every request all of whose
preferred slots are excluded, phase 1 ends with `false` in the unchanged state
(no room is tried and no write is issued), and `allocateRequest` returns the
same result and the same state (rows, occupancy, write count) as for the same
request with `preferredSlots` empty, for every outcome of the writes.
Scenario: `preferredSlots = [(9,0,0)]`, `excludedSlots = [(9,0,0)]` and one free
room of sufficient capacity: the request is assigned (9,0,1), not (9,0,0). -/
theorem C18_exclusion_wins_over_preference :
    (∀ (ok : Nat → Bool) (request : LabRequest) (labs : List Laboratory) (s : Scheduler),
      (∀ p ∈ request.preferredSlots, p ∈ request.excludedSlots) →
      phase1 ok request labs request.preferredSlots s = (false, s) ∧
      allocateRequest ok request labs s =
        allocateRequest ok { request with preferredSlots := [] } labs s) ∧
    allocateRequest allOk vetoRequest [scenarioLab] vetoScheduler =
      (true, commitState vetoScheduler vetoRequest scenarioLab ⟨9, 0, 1⟩) ∧
    (∀ deleted : Bool,
      (generateSchedule deleted allOk vetoScheduler).2.database.schedules.map Schedule.triple =
        [(1, 1, ⟨9, 0, 1⟩)]) := by
  refine ⟨?_, by decide, fun deleted => by cases deleted <;> decide⟩
  intro ok request labs s h
  have h1 := phase1_all_excluded ok request labs request.preferredSlots s h
  refine ⟨h1, ?_⟩
  unfold allocateRequest
  rw [h1]
  simp only [phase1]
  exact phase2_without_preferred ok request labs getAllPossibleSlots s h

/-- Witness of C18 on the request whose only preferred slot is excluded. -/
theorem C18_exclusion_wins_over_preference_witness :
    phase1 allOk vetoRequest [scenarioLab] vetoRequest.preferredSlots vetoScheduler =
      (false, vetoScheduler) ∧
    allocateRequest allOk vetoRequest [scenarioLab] vetoScheduler =
      allocateRequest allOk { vetoRequest with preferredSlots := [] } [scenarioLab]
        vetoScheduler :=
  C18_exclusion_wins_over_preference.1 allOk vetoRequest [scenarioLab] vetoScheduler
    (by decide)

/-! ## Failing writes: the scan as a walk over the candidates -/

theorem withWrites_zero (s : Scheduler) : withWrites s 0 = s := rfl

theorem withWrites_add (s : Scheduler) (a b : Nat) :
    withWrites (withWrites s a) b = withWrites s (a + b) := by
  simp [withWrites, Nat.add_assoc]

theorem tryWrites_append (ok : Nat → Bool) (request : LabRequest)
    (l1 l2 : List (TimeSlot × Laboratory)) (s : Scheduler) :
    tryWrites ok request (l1 ++ l2) s =
      match tryWrites ok request l1 s with
      | (true, s1) => (true, s1)
      | (false, s1) => tryWrites ok request l2 s1 := by
  induction l1 generalizing s with
  | nil => rfl
  | cons c rest ih =>
    obtain ⟨slot, lab⟩ := c
    simp only [List.cons_append, tryWrites]
    by_cases hok : ok s.database.writes = true
    · simp only [hok, if_true]
    · simp only [hok, if_false, Bool.false_eq_true]
      exact ih _

theorem tryWrites_failed (ok : Nat → Bool) (request : LabRequest)
    (l : List (TimeSlot × Laboratory)) (s : Scheduler)
    (h : (tryWrites ok request l s).1 = false) :
    (tryWrites ok request l s).2 = withWrites s l.length := by
  induction l generalizing s with
  | nil => rfl
  | cons c rest ih =>
    obtain ⟨slot, lab⟩ := c
    simp only [tryWrites] at h ⊢
    by_cases hok : ok s.database.writes = true
    · simp only [hok, if_true] at h
      exact Bool.noConfusion h
    · simp only [hok, if_false, Bool.false_eq_true] at h ⊢
      rw [ih _ h, withWrites_add, List.length_cons, Nat.add_comm]

theorem tryWrites_fail_iff (ok : Nat → Bool) (request : LabRequest)
    (l : List (TimeSlot × Laboratory)) (s : Scheduler) :
    (tryWrites ok request l s).1 = false ↔
      ∀ i, i < l.length → ok (s.database.writes + i) = false := by
  induction l generalizing s with
  | nil => simp [tryWrites]
  | cons c rest ih =>
    obtain ⟨slot, lab⟩ := c
    simp only [tryWrites, List.length_cons]
    by_cases hok : ok s.database.writes = true
    · simp only [hok, if_true, Bool.true_eq_false, false_iff]
      intro hall
      have := hall 0 (Nat.succ_pos _)
      rw [Nat.add_zero, hok] at this
      exact Bool.noConfusion this
    · have hok1 : ok s.database.writes = false := by simpa using hok
      simp only [hok, if_false, Bool.false_eq_true, ih]
      constructor
      · intro hall i hi
        cases i with
        | zero => simpa using hok1
        | succ j =>
          have := hall j (Nat.lt_of_succ_lt_succ hi)
          simpa [withWrites, Nat.add_assoc, Nat.add_comm 1 j] using this
      · intro hall i hi
        have := hall (i + 1) (Nat.succ_lt_succ hi)
        simpa [withWrites, Nat.add_assoc, Nat.add_comm 1 i] using this

theorem tryWrites_first_success (ok : Nat → Bool) (request : LabRequest)
    (l : List (TimeSlot × Laboratory)) (s : Scheduler) (i : Nat) (slot : TimeSlot)
    (lab : Laboratory) (hi : l[i]? = some (slot, lab))
    (hok : ok (s.database.writes + i) = true)
    (hfail : ∀ j, j < i → ok (s.database.writes + j) = false) :
    tryWrites ok request l s = (true, commitState (withWrites s i) request lab slot) := by
  induction l generalizing s i with
  | nil => simp at hi
  | cons c rest ih =>
    obtain ⟨slot0, lab0⟩ := c
    cases i with
    | zero =>
      simp only [List.getElem?_cons_zero, Option.some.injEq, Prod.mk.injEq] at hi
      obtain ⟨rfl, rfl⟩ := hi
      have hok0 : ok s.database.writes = true := by simpa using hok
      simp only [tryWrites, hok0, if_true, withWrites_zero]
    | succ j =>
      have h0 : ok s.database.writes = false := by simpa using hfail 0 (Nat.succ_pos _)
      simp only [List.getElem?_cons_succ] at hi
      simp only [tryWrites, h0, Bool.false_eq_true, if_false]
      rw [ih (withWrites s 1) j hi ?_ ?_, withWrites_add, Nat.add_comm 1 j]
      · simpa [withWrites, Nat.add_assoc, Nat.add_comm 1 j] using hok
      · intro k hk
        have := hfail (k + 1) (Nat.succ_lt_succ hk)
        simpa [withWrites, Nat.add_assoc, Nat.add_comm 1 k] using this

theorem scanLabs_eq_tryWrites (ok : Nat → Bool) (request : LabRequest) (slot : TimeSlot)
    (labs : List Laboratory) (s : Scheduler) :
    scanLabs ok request slot labs s =
      tryWrites ok request (candidatesAt s.labOccupancy request labs slot) s := by
  induction labs generalizing s with
  | nil => rfl
  | cons lab rest ih =>
    unfold scanLabs
    by_cases hcap : lab.capacity < request.studentCount
    · have hfit : roomFits s.labOccupancy request slot lab = false := by
        simp [roomFits, hcap]
      simp only [hcap, if_true, candidatesAt, List.filter_cons, hfit, Bool.false_eq_true,
        if_false]
      exact ih s
    · by_cases hav : isLabAvailable s.labOccupancy lab.id slot = true
      · have hfit : roomFits s.labOccupancy request slot lab = true := by
          simp [roomFits, not_lt.1 hcap, hav]
        simp only [hcap, hav, if_false, Bool.not_true, Bool.false_eq_true, candidatesAt,
          List.filter_cons, hfit, if_true, List.map_cons, tryWrites, Database.addSchedule]
        by_cases hok : ok s.database.writes = true
        · simp only [hok, if_true, commitState]
        · simp only [hok, if_false, Bool.false_eq_true]
          exact ih _
      · have hav1 : isLabAvailable s.labOccupancy lab.id slot = false := by simpa using hav
        have hfit : roomFits s.labOccupancy request slot lab = false := by
          simp [roomFits, hav1]
        simp only [hcap, hav1, if_false, if_true, Bool.not_false, candidatesAt,
          List.filter_cons, hfit, Bool.false_eq_true]
        exact ih s

theorem scanLabs_false_occupancy {ok : Nat → Bool} {request : LabRequest} {slot : TimeSlot}
    {labs : List Laboratory} {s s1 : Scheduler}
    (h : scanLabs ok request slot labs s = (false, s1)) :
    s1.labOccupancy = s.labOccupancy := by
  have hsp := scanLabs_spec ok request slot labs s
  rw [h] at hsp
  exact Failed.occupancy hsp

theorem phase1_eq_tryWrites (ok : Nat → Bool) (request : LabRequest) (labs : List Laboratory)
    (slots : List TimeSlot) (s : Scheduler) :
    phase1 ok request labs slots s =
      tryWrites ok request
        ((slots.filter fun p => !isSlotExcluded p request.excludedSlots).flatMap
          (candidatesAt s.labOccupancy request labs)) s := by
  induction slots generalizing s with
  | nil => rfl
  | cons p rest ih =>
    unfold phase1
    by_cases hex : isSlotExcluded p request.excludedSlots = true
    · simp only [hex, if_true, List.filter_cons, Bool.not_true, Bool.false_eq_true, if_false]
      exact ih s
    · have hex1 : isSlotExcluded p request.excludedSlots = false := by simpa using hex
      simp only [hex1, Bool.false_eq_true, if_false, List.filter_cons, Bool.not_false, if_true,
        List.flatMap_cons, tryWrites_append, ← scanLabs_eq_tryWrites]
      rcases hsc : scanLabs ok request p labs s with ⟨b, s1⟩
      cases b with
      | true => rfl
      | false =>
        simp only
        rw [ih s1, scanLabs_false_occupancy hsc]

theorem phase2_eq_tryWrites (ok : Nat → Bool) (request : LabRequest) (labs : List Laboratory)
    (slots : List TimeSlot) (s : Scheduler) :
    phase2 ok request labs slots s =
      tryWrites ok request
        ((slots.filter fun t => !isSlotExcluded t request.excludedSlots &&
            !request.preferredSlots.any fun p => p.eq t).flatMap
          (candidatesAt s.labOccupancy request labs)) s := by
  induction slots generalizing s with
  | nil => rfl
  | cons p rest ih =>
    unfold phase2
    by_cases hex : isSlotExcluded p request.excludedSlots = true
    · simp only [hex, if_true, List.filter_cons, Bool.not_true, Bool.false_and,
        Bool.false_eq_true, if_false]
      exact ih s
    · have hex1 : isSlotExcluded p request.excludedSlots = false := by simpa using hex
      by_cases hpref : request.preferredSlots.any (fun q => q.eq p) = true
      · simp only [hex1, hpref, Bool.false_eq_true, if_false, if_true, List.filter_cons,
          Bool.not_true, Bool.and_false]
        exact ih s
      · have hpref1 : request.preferredSlots.any (fun q => q.eq p) = false := by
          simpa using hpref
        simp only [hex1, hpref1, Bool.false_eq_true, if_false, List.filter_cons,
          Bool.not_false, Bool.and_self, if_true, List.flatMap_cons, tryWrites_append,
          ← scanLabs_eq_tryWrites]
        rcases hsc : scanLabs ok request p labs s with ⟨b, s1⟩
        cases b with
        | true => rfl
        | false =>
          simp only
          rw [ih s1, scanLabs_false_occupancy hsc]

theorem allocateRequest_eq_tryWrites (ok : Nat → Bool) (request : LabRequest)
    (labs : List Laboratory) (s : Scheduler) :
    allocateRequest ok request labs s =
      tryWrites ok request (candidates s.labOccupancy request labs) s := by
  unfold allocateRequest candidates phase1Slots phase2Slots
  rw [List.flatMap_append, tryWrites_append, ← phase1_eq_tryWrites]
  rcases hp : phase1 ok request labs request.preferredSlots s with ⟨b, s1⟩
  cases b with
  | true => rfl
  | false =>
    have hsp := phase1_spec ok request labs request.preferredSlots s
    rw [hp] at hsp
    simp only
    rw [phase2_eq_tryWrites, Failed.occupancy hsp]

theorem mem_candidates (occ : Occupancy) (request : LabRequest) (labs : List Laboratory)
    (slot : TimeSlot) (lab : Laboratory) :
    (slot, lab) ∈ candidates occ request labs ↔
      lab ∈ labs ∧ request.studentCount ≤ lab.capacity ∧
      isLabAvailable occ lab.id slot = true ∧ slot ∉ request.excludedSlots ∧
      (slot ∈ request.preferredSlots ∨ slot ∈ getAllPossibleSlots) := by
  have hx : ∀ t, isSlotExcluded t request.excludedSlots = false ↔ t ∉ request.excludedSlots := by
    intro t; rw [← isSlotExcluded_iff]; simp
  have hq : ∀ t, (request.preferredSlots.any fun p => p.eq t) = false ↔
      t ∉ request.preferredSlots := by
    intro t; rw [← preferred_any_iff]; simp
  simp only [candidates, candidatesAt, phase1Slots, phase2Slots, List.mem_flatMap,
    List.mem_append, List.mem_filter, List.mem_map, Prod.mk.injEq, roomFits,
    Bool.and_eq_true, Bool.not_eq_true', decide_eq_true_eq, hx, hq]
  constructor
  · rintro ⟨t, ht, l, ⟨hl, hcap, hav⟩, rfl, rfl⟩
    rcases ht with ⟨hp, hex⟩ | ⟨ha, hex, _⟩
    · exact ⟨hl, hcap, hav, hex, Or.inl hp⟩
    · exact ⟨hl, hcap, hav, hex, Or.inr ha⟩
  · rintro ⟨hl, hcap, hav, hex, hsl⟩
    refine ⟨slot, ?_, lab, ⟨hl, hcap, hav⟩, rfl, rfl⟩
    by_cases hp : slot ∈ request.preferredSlots
    · exact Or.inl ⟨hp, hex⟩
    · rcases hsl with h | h
      · exact absurd h hp
      · exact Or.inr ⟨h, hex, hp⟩

/-- C19 — a failed write does not abort the request.  `allocateRequest` walks the
candidates (the room+slot pairs that pass the capacity and availability checks,
in scan order: phase-1 slots then phase-2 slots, rooms in list order), issuing
one write per candidate.  If the first successful write is the one for
candidate number `i`, the request is committed to that candidate: exactly its
row is appended and only its pair is marked, the earlier candidates whose
writes failed are not marked.  `allocateRequest` returns failure iff the write
of every candidate fails, and then only the write count has changed. -/
theorem C19_persistence_failure_continues :
    (∀ (ok : Nat → Bool) (request : LabRequest) (labs : List Laboratory) (s : Scheduler),
      allocateRequest ok request labs s =
        tryWrites ok request (candidates s.labOccupancy request labs) s) ∧
    (∀ (occ : Occupancy) (request : LabRequest) (labs : List Laboratory) (slot : TimeSlot)
        (lab : Laboratory),
      (slot, lab) ∈ candidates occ request labs ↔
        lab ∈ labs ∧ request.studentCount ≤ lab.capacity ∧
        isLabAvailable occ lab.id slot = true ∧ slot ∉ request.excludedSlots ∧
        (slot ∈ request.preferredSlots ∨ slot ∈ getAllPossibleSlots)) ∧
    (∀ (ok : Nat → Bool) (request : LabRequest) (labs : List Laboratory) (s : Scheduler)
        (i : Nat) (slot : TimeSlot) (lab : Laboratory),
      (candidates s.labOccupancy request labs)[i]? = some (slot, lab) →
      ok (s.database.writes + i) = true →
      (∀ j, j < i → ok (s.database.writes + j) = false) →
      allocateRequest ok request labs s =
        (true, commitState (withWrites s i) request lab slot) ∧
      (allocateRequest ok request labs s).2.labOccupancy =
        markLabOccupied s.labOccupancy lab.id slot ∧
      (allocateRequest ok request labs s).2.database.schedules =
        s.database.schedules ++
          [{ id := s.database.nextId, requestId := request.id, labId := lab.id,
             timeSlot := slot }]) ∧
    (∀ (ok : Nat → Bool) (request : LabRequest) (labs : List Laboratory) (s : Scheduler),
      (allocateRequest ok request labs s).1 = false ↔
        ∀ i, i < (candidates s.labOccupancy request labs).length →
          ok (s.database.writes + i) = false) ∧
    (∀ (ok : Nat → Bool) (request : LabRequest) (labs : List Laboratory) (s : Scheduler),
      (allocateRequest ok request labs s).1 = false →
      (allocateRequest ok request labs s).2 =
        withWrites s (candidates s.labOccupancy request labs).length) := by
  refine ⟨allocateRequest_eq_tryWrites, mem_candidates, ?_, ?_, ?_⟩
  · intro ok request labs s i slot lab hi hok hfail
    have hrun := tryWrites_first_success ok request _ s i slot lab hi hok hfail
    rw [allocateRequest_eq_tryWrites, hrun]
    exact ⟨rfl, rfl, rfl⟩
  · intro ok request labs s
    rw [allocateRequest_eq_tryWrites]
    exact tryWrites_fail_iff ok request _ s
  · intro ok request labs s h
    rw [allocateRequest_eq_tryWrites] at h ⊢
    exact tryWrites_failed ok request _ s h

/-- Witness of C19: the first request of `test_algorithm.cpp` when only the
first write fails: room 1 at (9,0,0) is tried and left unmarked, the request is
committed to room 2 at (9,0,0). -/
theorem C19_persistence_failure_continues_witness :
    allocateRequest firstWriteFails testRequest1 testLabs testScheduler =
      (true, commitState (withWrites testScheduler 1) testRequest1
        { id := 2, location := "A302", capacity := 40 } ⟨9, 0, 0⟩) ∧
    (allocateRequest firstWriteFails testRequest1 testLabs testScheduler).2.labOccupancy =
      markLabOccupied testScheduler.labOccupancy 2 ⟨9, 0, 0⟩ ∧
    (allocateRequest firstWriteFails testRequest1 testLabs
        testScheduler).2.database.schedules =
      testScheduler.database.schedules ++
        [{ id := testScheduler.database.nextId, requestId := testRequest1.id, labId := 2,
           timeSlot := ⟨9, 0, 0⟩ }] :=
  C19_persistence_failure_continues.2.2.1 firstWriteFails testRequest1 testLabs testScheduler 1
    ⟨9, 0, 0⟩ { id := 2, location := "A302", capacity := 40 } (by decide) (by decide)
    (by decide)

/-! ## Occupancy and stored rows along a run -/

theorem scheduleLoop_append (ok : Nat → Bool) (labs : List Laboratory)
    (l1 l2 : List LabRequest) (s : Scheduler) (n : Int) :
    scheduleLoop ok labs (l1 ++ l2) s n =
      scheduleLoop ok labs l2 (scheduleLoop ok labs l1 s n).2 (scheduleLoop ok labs l1 s n).1 := by
  induction l1 generalizing s n with
  | nil => rfl
  | cons r rest ih =>
    rcases h : allocateRequest ok r labs s with ⟨b, s1⟩
    cases b <;> simp only [List.cons_append, scheduleLoop, h] <;> exact ih _ _

theorem Consistent.markedIffBooked {s : Scheduler} (h : Consistent s) :
    MarkedIffBooked 0 s := by
  intro labId slot
  rw [h.marked]
  simp only [List.mem_map, Schedule.booking, Prod.mk.injEq, List.drop_zero]

theorem markedIffBooked_withStale {s : Scheduler} (stale : List Schedule)
    (h : MarkedIffBooked 0 s) : MarkedIffBooked stale.length (withStale stale s) := by
  intro labId slot
  have h0 := h labId slot
  simp only [List.drop_zero] at h0
  have hrows : (withStale stale s).database.schedules.drop stale.length =
      s.database.schedules := List.drop_left _ _
  rw [hrows]
  exact h0

/-- C20 — mark-after-persist invariant: for every outcome of the writes and of
the `DELETE` of step 1, after each `allocateRequest` step of a run (the state
reached after any number `k` of requests, from which the run continues with the
remaining requests) and at the end of `generateSchedule`, a `(labId, timeSlot)`
pair is marked occupied iff a row committed in this run (a row of the table
after the rows that survived step 1, none when the `DELETE` succeeded) has that
pair. -/
theorem C20_mark_after_persist (deleted : Bool) (ok : Nat → Bool) (s : Scheduler) :
    (∀ k : Nat,
      MarkedIffBooked (survivors deleted s).length
        (scheduleLoop ok s.database.laboratories (s.database.requests.take k)
          (startState deleted s) 0).2 ∧
      generateSchedule deleted ok s =
        scheduleLoop ok s.database.laboratories (s.database.requests.drop k)
          (scheduleLoop ok s.database.laboratories (s.database.requests.take k)
            (startState deleted s) 0).2
          (scheduleLoop ok s.database.laboratories (s.database.requests.take k)
            (startState deleted s) 0).1) ∧
    MarkedIffBooked (survivors deleted s).length (generateSchedule deleted ok s).2 := by
  refine ⟨fun k => ⟨?_, ?_⟩, ?_⟩
  · rw [startState_eq deleted, scheduleLoop_withStale]
    exact markedIffBooked_withStale _
      (scheduleLoop_consistent _ _ _ _ _ (consistent_cleared _)).markedIffBooked
  · rw [generateSchedule_eq_loop, ← scheduleLoop_append, List.take_append_drop]
  · rw [generateSchedule_survivors]
    exact markedIffBooked_withStale _ (generateSchedule_consistent ok s).markedIffBooked

/-! ## First fit in phase 1 and the failure criterion -/

theorem roomFits_iff (occ : Occupancy) (request : LabRequest) (slot : TimeSlot)
    (lab : Laboratory) :
    roomFits occ request slot lab = true ↔
      request.studentCount ≤ lab.capacity ∧ isLabAvailable occ lab.id slot = true := by
  simp only [roomFits, Bool.and_eq_true, decide_eq_true_eq]

theorem eligible1_iff (occ : Occupancy) (request : LabRequest) (labs : List Laboratory)
    (t : TimeSlot) :
    eligible1 occ request labs t = true ↔
      t ∉ request.excludedSlots ∧
      ∃ l ∈ labs, request.studentCount ≤ l.capacity ∧ isLabAvailable occ l.id t = true := by
  simp only [eligible1, Bool.and_eq_true, Bool.not_eq_true', List.any_eq_true, roomFits_iff]
  have h1 : isSlotExcluded t request.excludedSlots = false ↔ t ∉ request.excludedSlots := by
    rw [← isSlotExcluded_iff]; simp
  rw [h1]

theorem find_split {α : Type} {p : α → Bool} {l : List α} {a : α}
    (h : l.find? p = some a) :
    p a = true ∧ ∃ front back, l = front ++ a :: back ∧ ∀ x ∈ front, p x = false := by
  obtain ⟨hp, front, back, hsplit, hfront⟩ := List.find?_eq_some.1 h
  exact ⟨hp, front, back, hsplit, fun x hx => by simpa using hfront x hx⟩

/-- C21 — phase-1 first-fit.  With every write succeeding, whenever phase 1
commits, the committed slot is the earliest element of `preferredSlots`, in the
request's own order, that is not excluded and has a room with
`capacity >= studentCount` available, and the committed room is the first room
of the list, in the caller's order, that has enough capacity and is available
at that slot.  On the data of `test_algorithm.cpp` (rooms of capacity 40, 40,
50) request 1 gets the first room at (9,0,0) and request 2 the second room at
(9,0,0); with a room of capacity 50 listed before one of capacity 40, a request
of 33 students gets the larger, earlier room. -/
theorem C21_phase1_first_fit :
    (∀ (request : LabRequest) (labs : List Laboratory) (s : Scheduler),
      (phase1 allOk request labs request.preferredSlots s).1 = true →
      ∃ slot lab front back before after,
        request.preferredSlots = front ++ slot :: back ∧
        (∀ t ∈ front, ¬ (t ∉ request.excludedSlots ∧
          ∃ l ∈ labs, request.studentCount ≤ l.capacity ∧
            isLabAvailable s.labOccupancy l.id t = true)) ∧
        slot ∉ request.excludedSlots ∧
        labs = before ++ lab :: after ∧
        (∀ l ∈ before, ¬ (request.studentCount ≤ l.capacity ∧
          isLabAvailable s.labOccupancy l.id slot = true)) ∧
        request.studentCount ≤ lab.capacity ∧
        isLabAvailable s.labOccupancy lab.id slot = true ∧
        allocateRequest allOk request labs s = (true, commitState s request lab slot)) ∧
    (∀ deleted : Bool,
      ((generateSchedule deleted allOk testScheduler).2.database.schedules.map
          Schedule.triple).take 2 =
        [(1, 1, ⟨9, 0, 0⟩), (2, 2, ⟨9, 0, 0⟩)]) ∧
    (∀ deleted : Bool,
      (generateSchedule deleted allOk largerFirstScheduler).2.database.schedules.map
          Schedule.triple =
        [(1, 1, ⟨9, 0, 0⟩)]) := by
  refine ⟨?_, fun deleted => by cases deleted <;> decide,
    fun deleted => by cases deleted <;> decide⟩
  intro request labs s h
  rw [phase1_allOk] at h
  cases hf : request.preferredSlots.find? (eligible1 s.labOccupancy request labs) with
  | none => simp only [hf] at h; exact Bool.noConfusion h
  | some slot =>
    simp only [hf] at h
    cases hl : labs.find? (roomFits s.labOccupancy request slot) with
    | none => simp only [hl] at h; exact Bool.noConfusion h
    | some lab =>
      obtain ⟨hel, front, back, hsplit, hfront⟩ := find_split hf
      obtain ⟨hfit, before, after, hlsplit, hbefore⟩ := find_split hl
      obtain ⟨hx, _⟩ := (eligible1_iff _ _ _ _).1 hel
      obtain ⟨hcap, hav⟩ := (roomFits_iff _ _ _ _).1 hfit
      refine ⟨slot, lab, front, back, before, after, hsplit, ?_, hx, hlsplit, ?_, hcap, hav, ?_⟩
      · intro t ht hel2
        have := hfront t ht
        rw [(eligible1_iff _ _ _ _).2 hel2] at this
        exact Bool.noConfusion this
      · intro l hlm hfit2
        have := hbefore l hlm
        rw [(roomFits_iff _ _ _ _).2 hfit2] at this
        exact Bool.noConfusion this
      · unfold allocateRequest
        rw [phase1_allOk]
        simp only [hf, hl]

/-- Witness of C21: the second request of `test_algorithm.cpp` (36 students),
processed after the first one holds room 1 at (9,0,0), is committed in phase 1
at (9,0,0) in room 2. -/
theorem C21_phase1_first_fit_witness :
    ∃ lab, lab.id = 2 ∧
      allocateRequest allOk testRequest2 testLabs testAfterFirst =
        (true, commitState testAfterFirst testRequest2 lab ⟨9, 0, 0⟩) := by
  obtain ⟨slot, lab, front, back, before, after, _, _, _, _, _, _, _, hrun⟩ :=
    C21_phase1_first_fit.1 testRequest2 testLabs testAfterFirst (by decide)
  have hrow : (allocateRequest allOk testRequest2 testLabs testAfterFirst).2.database.schedules =
      testAfterFirst.database.schedules ++
        [{ id := 2, requestId := 2, labId := 2, timeSlot := ⟨9, 0, 0⟩ }] := by decide
  rw [hrun] at hrow
  simp only [commitState, List.append_cancel_left_eq, List.cons.injEq, Schedule.mk.injEq,
    and_true] at hrow
  obtain ⟨_, _, hlab, hslot⟩ := hrow
  rw [hslot] at hrun
  exact ⟨lab, hlab, hrun⟩

/-- C22 — a request fails only when nothing fits: with every write succeeding,
`allocateRequest` returns failure iff there is no slot that is in
`preferredSlots` or in `getAllPossibleSlots`, is not in `excludedSlots`, and for
which some room of the list has `capacity >= studentCount` and is available
under the current occupancy index. -/
theorem C22_fails_only_when_nothing_fits (request : LabRequest) (labs : List Laboratory)
    (s : Scheduler) :
    (allocateRequest allOk request labs s).1 = false ↔
      ¬ ∃ slot, (slot ∈ request.preferredSlots ∨ slot ∈ getAllPossibleSlots) ∧
        slot ∉ request.excludedSlots ∧
        ∃ lab ∈ labs, request.studentCount ≤ lab.capacity ∧
          isLabAvailable s.labOccupancy lab.id slot = true := by
  rw [allocateRequest_eq_tryWrites, tryWrites_fail_iff]
  constructor
  · rintro hall ⟨slot, hsl, hex, lab, hlab, hcap, hav⟩
    have hm : (slot, lab) ∈ candidates s.labOccupancy request labs :=
      (mem_candidates _ _ _ _ _).2 ⟨hlab, hcap, hav, hex, hsl⟩
    have hpos : 0 < (candidates s.labOccupancy request labs).length :=
      List.length_pos_of_mem hm
    exact Bool.noConfusion (hall 0 hpos)
  · intro hno i hi
    exfalso
    apply hno
    have hm := List.getElem_mem hi
    obtain ⟨hlab, hcap, hav, hex, hsl⟩ :=
      (mem_candidates s.labOccupancy request labs
        ((candidates s.labOccupancy request labs)[i]).1
        ((candidates s.labOccupancy request labs)[i]).2).1 hm
    exact ⟨_, hsl, hex, _, hlab, hcap, hav⟩

/-! ## Failure leaves rows and occupancy alone -/

theorem allocateRequest_rows_extend (ok : Nat → Bool) (request : LabRequest)
    (labs : List Laboratory) (s : Scheduler) :
    s.database.schedules <+: (allocateRequest ok request labs s).2.database.schedules := by
  have hsp := allocateRequest_spec ok request labs s
  rcases h : allocateRequest ok request labs s with ⟨b, s1⟩
  rw [h] at hsp
  cases b with
  | false => exact ⟨[], by rw [List.append_nil]; exact (Failed.schedules hsp).symm⟩
  | true =>
    obtain ⟨lab, slot, _, _, hc⟩ := hsp
    exact ⟨_, hc.schedules.symm⟩

/-- C23 — no rollback and no side effect on failure: when `allocateRequest`
returns failure, the occupancy index and the stored rows are exactly what they
were before the call (for every outcome of the writes); every call, failing or
not, keeps the rows already stored; so the rows stored after any number `k` of
requests of a run are still present, in place, at the end of
`generateSchedule`, whatever the outcome of the `DELETE` of step 1. -/
theorem C23_no_rollback_on_failure :
    (∀ (ok : Nat → Bool) (request : LabRequest) (labs : List Laboratory) (s : Scheduler),
      (allocateRequest ok request labs s).1 = false →
      (allocateRequest ok request labs s).2.labOccupancy = s.labOccupancy ∧
      (allocateRequest ok request labs s).2.database.schedules = s.database.schedules) ∧
    (∀ (ok : Nat → Bool) (request : LabRequest) (labs : List Laboratory) (s : Scheduler),
      s.database.schedules <+: (allocateRequest ok request labs s).2.database.schedules) ∧
    (∀ (deleted : Bool) (ok : Nat → Bool) (s : Scheduler) (k : Nat),
      (scheduleLoop ok s.database.laboratories (s.database.requests.take k)
          (startState deleted s) 0).2.database.schedules
        <+: (generateSchedule deleted ok s).2.database.schedules) := by
  refine ⟨?_, allocateRequest_rows_extend, ?_⟩
  · intro ok request labs s h
    have hsp := allocateRequest_spec ok request labs s
    rcases hrun : allocateRequest ok request labs s with ⟨b, s1⟩
    rw [hrun] at hsp h
    cases b with
    | true => exact Bool.noConfusion h
    | false => exact ⟨Failed.occupancy hsp, Failed.schedules hsp⟩
  · intro deleted ok s k
    have hsplit : generateSchedule deleted ok s =
        scheduleLoop ok s.database.laboratories (s.database.requests.drop k)
          (scheduleLoop ok s.database.laboratories (s.database.requests.take k)
            (startState deleted s) 0).2
          (scheduleLoop ok s.database.laboratories (s.database.requests.take k)
            (startState deleted s) 0).1 := by
      rw [generateSchedule_eq_loop, ← scheduleLoop_append, List.take_append_drop]
    obtain ⟨_, new, _, _, hsch, _, _, _⟩ :=
      scheduleLoop_spec ok s.database.laboratories (s.database.requests.drop k)
        (scheduleLoop ok s.database.laboratories (s.database.requests.take k)
          (startState deleted s) 0).2
        (scheduleLoop ok s.database.laboratories (s.database.requests.take k)
          (startState deleted s) 0).1
    rw [hsplit, hsch]
    exact ⟨new, rfl⟩

/-- Witness of C23: a request of 60 students fails on the test rooms and leaves
the row and the mark of the first test request in place. -/
theorem C23_no_rollback_on_failure_witness :
    (allocateRequest allOk oversizeRequest testLabs testAfterFirst).2.labOccupancy =
      testAfterFirst.labOccupancy ∧
    (allocateRequest allOk oversizeRequest testLabs testAfterFirst).2.database.schedules =
      testAfterFirst.database.schedules :=
  C23_no_rollback_on_failure.1 allOk oversizeRequest testLabs testAfterFirst (by decide)

/-! ## Return value against statistics -/

theorem allocResults_length (ok : Nat → Bool) (labs : List Laboratory)
    (requests : List LabRequest) (s : Scheduler) :
    (allocResults ok labs requests s).length = requests.length := by
  induction requests generalizing s with
  | nil => rfl
  | cons r rest ih => simp only [allocResults, List.length_cons, ih]

theorem count_true_add_count_false (l : List Bool) :
    l.count true + l.count false = l.length := by
  induction l with
  | nil => rfl
  | cons b rest ih =>
    cases b <;> simp only [List.count_cons_self, List.count_cons_of_ne, ne_eq,
      Bool.false_eq_true, Bool.true_eq_false, not_false_eq_true, List.length_cons] <;> omega

theorem committedRows_requestIds_nodup (deleted : Bool) (ok : Nat → Bool) (s : Scheduler)
    (hids : (s.database.requests.map LabRequest.id).Nodup) :
    ((committedRows deleted ok s).map Schedule.requestId).Nodup := by
  obtain ⟨served, hsub, hf, _, _, _⟩ := generateSchedule_spec deleted ok s
  rw [committedFor_requestIds hf]
  exact (hsub.map LabRequest.id).nodup hids

theorem stats_of_committedRows (deleted : Bool) (ok : Nat → Bool) (s t : Scheduler)
    (hids : (s.database.requests.map LabRequest.id).Nodup)
    (hreq : t.database.requests = s.database.requests)
    (hrows : t.database.schedules = committedRows deleted ok s) :
    (getScheduleStats t).successfulRequests = (generateSchedule deleted ok s).1 ∧
    (getScheduleStats t).failedRequests =
      ((allocResults ok s.database.laboratories s.database.requests
        (startState deleted s)).count false : Int) := by
  obtain ⟨served, _, hf, hcnt, _, _⟩ := generateSchedule_spec deleted ok s
  have hnd := committedRows_requestIds_nodup deleted ok s hids
  have hsucc : (getScheduleStats t).successfulRequests = (generateSchedule deleted ok s).1 := by
    have h1 : (getScheduleStats t).successfulRequests =
        ((scheduledRequestIds t.database.schedules).length : Int) := rfl
    rw [h1, hrows, scheduledRequestIds_length, List.toFinset_card_of_nodup hnd,
      List.length_map, hcnt, hf.length_eq]
  refine ⟨hsucc, ?_⟩
  have h2 : (getScheduleStats t).failedRequests =
      (t.database.requests.length : Int) - (getScheduleStats t).successfulRequests := rfl
  have h3 : (generateSchedule deleted ok s).1 =
      ((allocResults ok s.database.laboratories s.database.requests
        (startState deleted s)).count true : Int) := by
    rw [generateSchedule_eq_loop, scheduleLoop_count]; simp
  have h4 := count_true_add_count_false
    (allocResults ok s.database.laboratories s.database.requests (startState deleted s))
  rw [allocResults_length] at h4
  rw [h2, hsucc, h3, hreq]
  omega

/-- C25 — the run's return value agrees with the statistics: when request ids
are pairwise distinct, `getScheduleStats` computed over the same requests and
over exactly the rows committed by `generateSchedule` reports
`successfulRequests` equal to the integer returned by `generateSchedule` and
`failedRequests` equal to the number of requests whose `allocateRequest` call
returned failure, whatever the outcome of the `DELETE` of step 1 and of the
writes; in particular so for the state left by a run whose `DELETE`
succeeded, the table then holding exactly the committed rows. -/
theorem C25_return_value_agrees_with_stats (deleted : Bool) (ok : Nat → Bool) (s : Scheduler)
    (hids : (s.database.requests.map LabRequest.id).Nodup) :
    (∀ t : Scheduler, t.database.requests = s.database.requests →
      t.database.schedules = committedRows deleted ok s →
      (getScheduleStats t).successfulRequests = (generateSchedule deleted ok s).1 ∧
      (getScheduleStats t).failedRequests =
        ((allocResults ok s.database.laboratories s.database.requests
          (startState deleted s)).count false : Int)) ∧
    (getScheduleStats (generateSchedule true ok s).2).successfulRequests =
      (generateSchedule true ok s).1 ∧
    (getScheduleStats (generateSchedule true ok s).2).failedRequests =
      ((allocResults ok s.database.laboratories s.database.requests
        (startState true s)).count false : Int) := by
  refine ⟨fun t hreq hrows => stats_of_committedRows deleted ok s t hids hreq hrows, ?_⟩
  obtain ⟨_, _, _, _, _, hreq⟩ := generateSchedule_spec true ok s
  exact stats_of_committedRows true ok s _ hids hreq (committedRows_deleted ok s).symm

/-- Witness of C25 on the data of `test_algorithm.cpp`. -/
theorem C25_return_value_agrees_with_stats_witness :
    (getScheduleStats (generateSchedule true allOk testScheduler).2).successfulRequests =
      (generateSchedule true allOk testScheduler).1 ∧
    (getScheduleStats (generateSchedule true allOk testScheduler).2).failedRequests =
      ((allocResults allOk testScheduler.database.laboratories testScheduler.database.requests
        (startState true testScheduler)).count false : Int) :=
  (C25_return_value_agrees_with_stats true allOk testScheduler (by decide)).2

/-! ## Statistics on well-formed input -/

theorem filter_length_split {α : Type} (p : α → Bool) (l : List α) :
    (l.filter p).length + (l.filter fun a => !p a).length = l.length := by
  induction l with
  | nil => rfl
  | cons a rest ih =>
    cases hp : p a <;> simp only [List.filter_cons, hp, Bool.not_true, Bool.not_false,
      Bool.false_eq_true, if_true, if_false, List.length_cons] <;> omega

theorem stats_counts (s : Scheduler)
    (hids : (s.database.requests.map LabRequest.id).Nodup)
    (hrows : ∀ sch ∈ s.database.schedules,
      ∃ request ∈ s.database.requests, request.id = sch.requestId) :
    (s.database.requests.filter fun request =>
        !idSetContains (scheduledRequestIds s.database.schedules) request.id).length +
      (scheduledRequestIds s.database.schedules).length = s.database.requests.length := by
  obtain ⟨hsorted, hmem⟩ := scheduledRequestIds_spec s.database.schedules
  have hnd : (scheduledRequestIds s.database.schedules).Nodup := hsorted.imp fun h => ne_of_lt h
  have hnd1 : ((s.database.requests.filter fun request =>
      idSetContains (scheduledRequestIds s.database.schedules) request.id).map
        LabRequest.id).Nodup :=
    ((List.filter_sublist _).map LabRequest.id).nodup hids
  have hperm := (List.perm_ext_iff_of_nodup hnd1 hnd).2 (by
    intro y
    simp only [List.mem_map, List.mem_filter, idSetContains_iff]
    constructor
    · rintro ⟨r, ⟨_, hr⟩, rfl⟩
      exact hr
    · intro hy
      obtain ⟨sch, hsch, hsid⟩ := List.mem_map.1 ((hmem y).1 hy)
      obtain ⟨request, hreq, hrid⟩ := hrows sch hsch
      exact ⟨request, ⟨hreq, by rw [hrid, hsid]; exact hy⟩, by rw [hrid, hsid]⟩)
  have hlen := hperm.length_eq
  rw [List.length_map] at hlen
  have hsplit := filter_length_split
    (fun request : LabRequest =>
      idSetContains (scheduledRequestIds s.database.schedules) request.id)
    s.database.requests
  omega

/-- C24 — statistics are self-consistent on well-formed input: when request ids
are pairwise distinct and every row's `requestId` is the id of a request of the
list, `failedRequests` is the length of `failedClasses`,
`0 <= successfulRequests <= totalRequests`, `failedRequests >= 0` and
`0 <= successRate <= 100`. -/
theorem C24_stats_self_consistent (s : Scheduler)
    (hids : (s.database.requests.map LabRequest.id).Nodup)
    (hrows : ∀ sch ∈ s.database.schedules,
      ∃ request ∈ s.database.requests, request.id = sch.requestId) :
    (getScheduleStats s).failedRequests = ((getScheduleStats s).failedClasses.length : Int) ∧
    0 ≤ (getScheduleStats s).successfulRequests ∧
    (getScheduleStats s).successfulRequests ≤ (getScheduleStats s).totalRequests ∧
    0 ≤ (getScheduleStats s).failedRequests ∧
    0 ≤ (getScheduleStats s).successRate ∧
    (getScheduleStats s).successRate ≤ 100 := by
  have hcounts := stats_counts s hids hrows
  have htotal : (getScheduleStats s).totalRequests = (s.database.requests.length : Int) := rfl
  have hsucc : (getScheduleStats s).successfulRequests =
      ((scheduledRequestIds s.database.schedules).length : Int) := rfl
  have hfailed : (getScheduleStats s).failedRequests =
      (s.database.requests.length : Int) -
        ((scheduledRequestIds s.database.schedules).length : Int) := rfl
  have hclasses : (getScheduleStats s).failedClasses.length =
      (s.database.requests.filter fun request =>
        !idSetContains (scheduledRequestIds s.database.schedules) request.id).length := by
    have hf : (getScheduleStats s).failedClasses =
        failedClassesLoop (scheduledRequestIds s.database.schedules) s.database.requests := rfl
    rw [hf, failedClassesLoop_eq, List.length_map]
  have hrate : (getScheduleStats s).successRate =
      if (s.database.requests.length : Int) > 0 then
        (((scheduledRequestIds s.database.schedules).length : Int) : ℚ) * 100 /
          ((s.database.requests.length : Int) : ℚ)
      else 0 := rfl
  have hle : (scheduledRequestIds s.database.schedules).length ≤ s.database.requests.length := by
    omega
  have hleq : ((scheduledRequestIds s.database.schedules).length : ℚ) ≤
      (s.database.requests.length : ℚ) := by exact_mod_cast hle
  refine ⟨?_, ?_, ?_, ?_, ?_, ?_⟩
  · rw [hfailed, hclasses]; omega
  · rw [hsucc]; omega
  · rw [hsucc, htotal]; omega
  · rw [hfailed]; omega
  · rw [hrate]
    split_ifs
    · push_cast
      positivity
    · exact le_refl _
  · rw [hrate]
    split_ifs with hpos
    · push_cast
      have hb : (0 : ℚ) < (s.database.requests.length : ℚ) := by exact_mod_cast hpos
      rw [div_le_iff₀ hb]
      linarith
    · norm_num

/-- Witness of C24 on three requests of which two have rows. -/
theorem C24_stats_self_consistent_witness :
    (getScheduleStats statsScheduler).failedRequests =
      ((getScheduleStats statsScheduler).failedClasses.length : Int) ∧
    0 ≤ (getScheduleStats statsScheduler).successfulRequests ∧
    (getScheduleStats statsScheduler).successfulRequests ≤
      (getScheduleStats statsScheduler).totalRequests ∧
    0 ≤ (getScheduleStats statsScheduler).failedRequests ∧
    0 ≤ (getScheduleStats statsScheduler).successRate ∧
    (getScheduleStats statsScheduler).successRate ≤ 100 :=
  C24_stats_self_consistent statsScheduler (by decide) (by decide)

/-! ## The room-time capacity bound -/

theorem getAllPossibleSlots_length : getAllPossibleSlots.length = 20 := by
  decide

theorem committed_slot_in_universe {labs : List Laboratory} {request : LabRequest}
    {sch : Schedule} (h : CommittedFor labs request sch)
    (hpref : ∀ p ∈ request.preferredSlots, p ∈ getAllPossibleSlots) :
    sch.timeSlot ∈ getAllPossibleSlots := by
  rcases h.2.2.1 with hp | ha
  · exact hpref _ hp
  · exact ha

/-- C26 — room-time capacity bound.  The rows committed by a run pair off, in
order, with the served requests, and each row's slot is one of its request's
`preferredSlots` or a member of `getAllPossibleSlots`.  Hence, if every
request's preferred slots lie in the slot universe, every committed slot lies
in the universe, no room id receives more than 20 rows in a run, and the value
returned by `generateSchedule` is at most the number of requests and at most 20
times the number of distinct room ids, whatever the outcome of the `DELETE` of
step 1 and of the writes. -/
theorem C26_room_time_capacity_bound (deleted : Bool) (ok : Nat → Bool) (s : Scheduler) :
    (∃ served : List LabRequest, served.Sublist s.database.requests ∧
      List.Forall₂
        (fun request sch => sch.requestId = request.id ∧
          (sch.timeSlot ∈ request.preferredSlots ∨ sch.timeSlot ∈ getAllPossibleSlots))
        served (committedRows deleted ok s)) ∧
    ((∀ request ∈ s.database.requests, ∀ p ∈ request.preferredSlots,
        p ∈ getAllPossibleSlots) →
      (∀ sch ∈ (committedRows deleted ok s),
        9 ≤ sch.timeSlot.week ∧ sch.timeSlot.week ≤ 10 ∧
        0 ≤ sch.timeSlot.day ∧ sch.timeSlot.day < 5 ∧
        0 ≤ sch.timeSlot.period ∧ sch.timeSlot.period < 2) ∧
      (∀ labId : Int,
        ((committedRows deleted ok s).filter
          fun sch => sch.labId = labId).length ≤ 20) ∧
      (generateSchedule deleted ok s).1 ≤
        min (s.database.requests.length : Int)
          (20 * ((s.database.laboratories.map Laboratory.id).toFinset.card : Int))) := by
  obtain ⟨served, hsub, hf, hcnt, _, _⟩ := generateSchedule_spec deleted ok s
  refine ⟨⟨served, hsub, hf.imp fun _ _ h => ⟨h.1, h.2.2.1⟩⟩, fun hpref => ?_⟩
  have hnd := committedRows_nodup deleted ok s
  have hin : ∀ sch ∈ (committedRows deleted ok s),
      sch.timeSlot ∈ getAllPossibleSlots ∧
      sch.labId ∈ s.database.laboratories.map Laboratory.id := by
    intro sch hsch
    obtain ⟨request, hreq, hc⟩ := forall₂_mem_right hf hsch
    refine ⟨committed_slot_in_universe hc (hpref request (hsub.subset hreq)), ?_⟩
    obtain ⟨lab, hlab, hid, _⟩ := hc.2.2.2
    exact List.mem_map.2 ⟨lab, hlab, hid⟩
  refine ⟨fun sch hsch => (mem_getAllPossibleSlots _).1 (hin sch hsch).1, fun labId => ?_, ?_⟩
  · have hsubl : (((committedRows deleted ok s).filter
        fun sch => sch.labId = labId).map Schedule.booking).Nodup :=
      ((List.filter_sublist _).map Schedule.booking).nodup hnd
    have hmapeq : ((committedRows deleted ok s).filter
        fun sch => sch.labId = labId).map Schedule.booking =
        (((committedRows deleted ok s).filter
          fun sch => sch.labId = labId).map Schedule.timeSlot).map fun t => (labId, t) := by
      rw [List.map_map]
      apply List.map_congr_left
      intro sch hsch
      have hl : sch.labId = labId := by simpa using (List.mem_filter.1 hsch).2
      simp only [Schedule.booking, Function.comp, hl]
    rw [hmapeq] at hsubl
    have hslots := List.Nodup.of_map _ hsubl
    have hsubset : ((committedRows deleted ok s).filter
        fun sch => sch.labId = labId).map Schedule.timeSlot ⊆ getAllPossibleSlots := by
      intro t ht
      obtain ⟨sch, hsch, rfl⟩ := List.mem_map.1 ht
      exact (hin sch (List.mem_filter.1 hsch).1).1
    have hlen := (List.subperm_of_subset hslots hsubset).length_le
    rw [List.length_map, getAllPossibleSlots_length] at hlen
    exact hlen
  · have hsubset : (committedRows deleted ok s).map Schedule.booking ⊆
        (s.database.laboratories.map Laboratory.id).dedup ×ˢ getAllPossibleSlots := by
      intro b hb
      obtain ⟨sch, hsch, rfl⟩ := List.mem_map.1 hb
      exact List.mem_product.2 ⟨List.mem_dedup.2 (hin sch hsch).2, (hin sch hsch).1⟩
    have hlen := (List.subperm_of_subset hnd hsubset).length_le
    rw [List.length_map, List.length_product, getAllPossibleSlots_length,
      ← List.card_toFinset] at hlen
    have hrows : (generateSchedule deleted ok s).1 =
        ((committedRows deleted ok s).length : Int) := by
      rw [hcnt, hf.length_eq]
    have hserved : served.length ≤ s.database.requests.length := hsub.length_le
    have hfl := hf.length_eq
    refine le_min ?_ ?_
    · rw [hcnt]; exact_mod_cast hserved
    · rw [hrows]
      have : ((committedRows deleted ok s).length : Int) ≤
          (((s.database.laboratories.map Laboratory.id).toFinset.card * 20 : Nat) : Int) := by
        exact_mod_cast hlen
      push_cast at this
      linarith

/-- Witness of C26 on the data of `test_algorithm.cpp`, whose preferred slots
all lie in week 9. -/
theorem C26_room_time_capacity_bound_witness :
    (∀ sch ∈ (committedRows true allOk testScheduler),
      9 ≤ sch.timeSlot.week ∧ sch.timeSlot.week ≤ 10 ∧
      0 ≤ sch.timeSlot.day ∧ sch.timeSlot.day < 5 ∧
      0 ≤ sch.timeSlot.period ∧ sch.timeSlot.period < 2) ∧
    (∀ labId : Int,
      ((committedRows true allOk testScheduler).filter
        fun sch => sch.labId = labId).length ≤ 20) ∧
    (generateSchedule true allOk testScheduler).1 ≤
      min (testScheduler.database.requests.length : Int)
        (20 * ((testScheduler.database.laboratories.map Laboratory.id).toFinset.card : Int)) :=
  (C26_room_time_capacity_bound true allOk testScheduler).2 (by decide)

end LabSchedule
